import Mathlib

/-!
Verification development for the LEDGER_APP repository.

Shallow embedding of the core modules:
  core/model.py        (RawRow, fingerprint)
  core/validator.py    (validate_row)
  core/ledger_store.py (LedgerStore)
  core/trade.py        (create_trade)
  core/reversal.py     (create_reversal, create_reversal_pair)
  core/service.py      (LedgerService.add_reversal)

Modelling conventions:
  * Python `Decimal` values are embedded as rationals (ℚ).  `Decimal`
    *operations* run under Python's default decimal context: 28 significant
    digits of precision with ROUND_HALF_EVEN.  Every arithmetic operation —
    including addition and unary minus — rounds its exact result to 28
    significant digits (`roundPrec` below); `decAdd`/`decNeg` embed `+` and
    unary `-` under that context.  Constructing a `Decimal` from a string,
    comparisons, and `str`/`Decimal` round-trips do not round and are exact,
    and `__format__` (the `:.8f` rendering used by the fingerprint) formats
    the stored value directly without applying context precision.
    (`Decimal`'s signed zero is not representable in ℚ; no claim depends on
    it.  Value-level rounding is sign-symmetric and faithful to coefficient
    rounding for every value reachable here.)
  * Python `datetime` is embedded as a whole-second count plus a microsecond
    count.  `strftime("%Y-%m-%dT%H:%M:%S")` depends only on the whole-second
    count and is injective in it; it is rendered here as the decimal second
    count.  `isoformat()` text comparison (used by the SQLite `ORDER BY
    timestamp`) agrees with lexicographic comparison of (sec, micro).
  * `hashlib.sha256(...).hexdigest()` is modelled as the identity on its
    normalized pre-image string: equality of fingerprints in the code is
    equality of sha256 digests, which coincides with equality of pre-images
    up to hash collisions.
  * The SQLite table is embedded as a list of stored rows in insertion order;
    `pk` (AUTOINCREMENT, starting at 1) is the 1-based position in the list.
    The UNIQUE index on `row_fp` makes a colliding INSERT raise
    `IntegrityError`, which `insert` catches and turns into `False`.
  * SQLite `ORDER BY` over the indexed columns is a stable sort (index scan
    in key order, ties in rowid order), embedded as `List.mergeSort`.
-/

namespace LedgerApp

/-- Embedded `datetime`: whole seconds plus microseconds. -/
structure DateTime where
  sec : Nat
  micro : Nat
deriving DecidableEq

/-- Chronological (= isoformat-text) order on datetimes, as a Bool. -/
def tsLeB (a b : DateTime) : Bool :=
  decide (a.sec < b.sec ∨ (a.sec = b.sec ∧ a.micro ≤ b.micro))

/-- Embedding of Python `str.upper()`: character-wise ASCII uppercasing
(structurally recursive, unlike `String.toUpper`, but character-for-character
the same function). -/
def upperStr (s : String) : String := ⟨s.data.map Char.toUpper⟩

/-- Embedding of Python `str.lower()`: character-wise ASCII lowercasing. -/
def lowerStr (s : String) : String := ⟨s.data.map Char.toLower⟩

/-- Left-pad a natural number with zeros to 8 digits (the fractional part of
an `:.8f` rendering). -/
def pad8 (n : Nat) : String :=
  "".pushn (Char.ofNat 48) (8 - (toString n).length) ++ toString n

/-- Round a rational to the nearest integer, ties to even: the rounding used
by Python `format` on `Decimal` (ROUND_HALF_EVEN). -/
def roundHalfEven (q : ℚ) : ℤ :=
  if q - ⌊q⌋ < 1/2 then ⌊q⌋
  else if q - ⌊q⌋ > 1/2 then ⌊q⌋ + 1
  else if ⌊q⌋ % 2 = 0 then ⌊q⌋ else ⌊q⌋ + 1

/-- The adjusted exponent of a nonzero rational: `⌊log10 |q|⌋`, i.e. the
unique `e` with `10 ^ e ≤ |q| < 10 ^ (e + 1)` (the exponent of the leading
significant digit, `Decimal.adjusted()`). -/
def adjExp (q : ℚ) : ℤ :=
  if (10 : ℚ) ^ ((Nat.log 10 q.num.natAbs : ℤ) - (Nat.log 10 q.den : ℤ)) ≤ |q| then
    (Nat.log 10 q.num.natAbs : ℤ) - (Nat.log 10 q.den : ℤ)
  else
    (Nat.log 10 q.num.natAbs : ℤ) - (Nat.log 10 q.den : ℤ) - 1

/-- Rounding a value to the default decimal context: 28 significant digits,
ROUND_HALF_EVEN.  The result keeps the 28 leading digit positions of `q`
(positions `adjExp q` down to `adjExp q - 27`) and rounds the rest half-even.
This is what Python's default `decimal` context applies to the result of
every arithmetic operation. -/
def roundPrec (q : ℚ) : ℚ :=
  if q = 0 then 0
  else (roundHalfEven (q / 10 ^ (adjExp q - 27)) : ℚ) * 10 ^ (adjExp q - 27)

/-- Python `Decimal.__add__` under the default context: exact addition
followed by rounding to 28 significant digits. -/
def decAdd (a b : ℚ) : ℚ := roundPrec (a + b)

/-- Python `Decimal.__neg__` under the default context: exact negation
followed by rounding to 28 significant digits (`minus` applies the context
like every other operation). -/
def decNeg (a : ℚ) : ℚ := roundPrec (-a)

/-- Embedding of the Python f-string `f"{x:.8f}"` on a `Decimal` value:
fixed-point rendering with exactly 8 fractional digits. -/
def fmt8 (q : ℚ) : String :=
  let n : ℤ := roundHalfEven (q * 100000000)
  (if n < 0 then "-" else "")
    ++ toString (n.natAbs / 100000000) ++ "." ++ pad8 (n.natAbs % 100000000)

/-- `VALID_TYPES` from core/model.py. -/
def VALID_TYPES : List String := ["BUY", "SELL", "TRANSFER", "FEE", "REVERSAL"]

/-- `RawRow` from core/model.py, after `__post_init__`: `id` is always a
string (a fresh uuid4 is substituted for `None`; id generation is passed in
explicitly by callers of the embedding), `amount`/`price` are `Decimal`,
`timestamp` is a `datetime`. -/
structure RawRow where
  timestamp : DateTime
  type : String
  asset : String
  amount : ℚ
  currency : String
  price : Option ℚ
  venue : String
  note : Option String
  id : String
deriving DecidableEq

/-- `RawRow.fingerprint` from core/model.py: sha256 over the concatenation of
the second-precision timestamp, uppercased type, lowercased venue, uppercased
asset and the amount rendered to 8 decimal places.  The digest is modelled as
the normalized pre-image itself. -/
def RawRow.fingerprint (r : RawRow) : String :=
  toString r.timestamp.sec ++ upperStr r.type ++ lowerStr r.venue
    ++ upperStr r.asset ++ fmt8 r.amount

/-- `validate_row` from core/validator.py.  The `isinstance` checks on
`timestamp`/`asset`/`currency`/`venue` and the `Decimal(str(...))` parses
always succeed in the typed embedding; the remaining checks are live.
All errors are collected, never short-circuited. -/
def validate_row (r : RawRow) : Bool × List String :=
  let errors : List String :=
    (if r.id = "" then ["Chybí id."] else [])
      ++ (if r.type ∈ VALID_TYPES then [] else ["Neplatný type: " ++ r.type])
      ++ (if r.asset = "" then ["Chybí nebo neplatný asset."] else [])
      ++ (if r.amount = 0 then ["amount je 0."] else [])
      ++ (if r.currency = "" then ["Chybí nebo neplatný currency."] else [])
      ++ (if r.venue = "" then ["Chybí nebo neplatný venue."] else [])
  (errors.length = 0, errors)

/-- `validate_rows` from core/validator.py. -/
def validate_rows (rows : List RawRow) : List RawRow × List (Nat × List String) :=
  ((rows.filter (fun r => (validate_row r).1)),
   (rows.enum.filterMap (fun p =>
      if (validate_row p.2).1 then none else some (p.1, (validate_row p.2).2))))

/-- One persisted record of the `ledger` table (core/ledger_store.py,
`_create_tables`): the column values produced by `insert`/`insert_pair`.
The surrogate key `pk` is the 1-based position in the store list. -/
structure StoredRow where
  id : String
  timestamp : DateTime
  type : String
  asset : String
  amount : ℚ
  currency : String
  price : Option ℚ
  venue : String
  note : Option String
  row_fp : String
  imported_at : DateTime
deriving DecidableEq

/-- The column values bound by the INSERT statements of `insert` and
`insert_pair`: asset/currency uppercased, venue lowercased, amount and price
stored as exact decimal text (value-preserving), fingerprint attached.
(`row.id or ""` is the identity on the always-a-string `id`.) -/
def storedOf (now : DateTime) (r : RawRow) : StoredRow :=
  { id := r.id
    timestamp := r.timestamp
    type := r.type
    asset := upperStr r.asset
    amount := r.amount
    currency := upperStr r.currency
    price := r.price
    venue := lowerStr r.venue
    note := r.note
    row_fp := r.fingerprint
    imported_at := now }

/-- `_row_to_rawrow` from core/ledger_store.py: reading a stored record back
into a `RawRow` (`Decimal(text)` round-trips the exact value). -/
def rawOf (sr : StoredRow) : RawRow :=
  { id := sr.id
    timestamp := sr.timestamp
    type := sr.type
    asset := sr.asset
    amount := sr.amount
    currency := sr.currency
    price := sr.price
    venue := sr.venue
    note := sr.note }

/-- The `ledger` table: stored rows in insertion (rowid) order. -/
abbrev Store := List StoredRow

/-- Association-list lookup with default: Python `dict.get(k, d)`. -/
def lookupD {β : Type} (m : List (String × β)) (k : String) (d : β) : β :=
  match m with
  | [] => d
  | p :: rest => if p.1 = k then p.2 else lookupD rest k d

/-- Association-list update: Python `dict[k] = v`. -/
def upsert {β : Type} (m : List (String × β)) (k : String) (v : β) :
    List (String × β) :=
  match m with
  | [] => [(k, v)]
  | p :: rest => if p.1 = k then (p.1, v) :: rest else p :: upsert rest k v

namespace Store

/-- Does some persisted row already carry this fingerprint?  (The state the
UNIQUE index `idx_row_fp` checks on INSERT.) -/
def fpPresent (s : Store) (fp : String) : Bool :=
  s.any (fun sr => decide (sr.row_fp = fp))

/-- `LedgerStore.insert`: on a fingerprint collision the INSERT raises
`IntegrityError`, which is caught and returned as `false` with the table
unchanged; otherwise the row is appended and `true` returned. -/
def insert (now : DateTime) (s : Store) (r : RawRow) : Bool × Store :=
  if fpPresent s r.fingerprint then (false, s) else (true, s ++ [storedOf now r])

/-- `LedgerStore.import_rows`: insert each row in order, counting inserted
and skipped. -/
def import_rows (now : DateTime) (s : Store) (rows : List RawRow) :
    (Nat × Nat) × Store :=
  match rows with
  | [] => ((0, 0), s)
  | r :: rest =>
    let res := insert now s r
    let t := import_rows now res.2 rest
    ((if res.1 then t.1.1 + 1 else t.1.1, if res.1 then t.1.2 else t.1.2 + 1), t.2)

/-- Row order used by `ORDER BY timestamp ASC`. -/
def rowLeB (r1 r2 : StoredRow) : Bool := tsLeB r1.timestamp r2.timestamp

/-- `LedgerStore.timeline`: all rows, `ORDER BY timestamp ASC` (stable index
scan: ties stay in rowid = insertion order), read back as `RawRow`s. -/
def timeline (s : Store) : List RawRow :=
  (s.mergeSort rowLeB).map rawOf

/-- The accumulation step of `asset_balances`:
`totals[asset] = totals.get(asset, Decimal("0")) + Decimal(amount)` — the
`+` is `Decimal` addition under the default context, i.e. `decAdd`. -/
def abStep (m : List (String × ℚ)) (sr : StoredRow) : List (String × ℚ) :=
  upsert m sr.asset (decAdd (lookupD m sr.asset 0) sr.amount)

/-- `LedgerStore.asset_balances`: scan `SELECT asset, amount ... ORDER BY
asset` and accumulate context-rounded decimal totals per asset into a dict
(embedded as an association list in key-insertion order). -/
def asset_balances (s : Store) : List (String × ℚ) :=
  (s.mergeSort (fun r1 r2 => decide (r1.asset ≤ r2.asset))).foldl abStep []

/-- The accumulation step of `venue_balances` (`Decimal` addition under the
default context). -/
def vbStep (m : List (String × List (String × ℚ))) (sr : StoredRow) :
    List (String × List (String × ℚ)) :=
  let inner := lookupD m sr.venue []
  upsert m sr.venue (upsert inner sr.asset (decAdd (lookupD inner sr.asset 0) sr.amount))

/-- `LedgerStore.venue_balances`: scan `SELECT venue, asset, amount ... ORDER
BY venue, asset` and accumulate context-rounded totals per (venue, asset). -/
def venue_balances (s : Store) : List (String × List (String × ℚ)) :=
  (s.mergeSort (fun r1 r2 =>
      r1.venue < r2.venue || (r1.venue == r2.venue && r1.asset ≤ r2.asset))).foldl
    vbStep []

end Store

/-- One warning record built by `LedgerStore.diagnostics`. -/
structure Warning where
  type : String
  venue : String
  asset : String
  balance : ℚ
  msg : String
deriving DecidableEq

/-- The warning dict literal of `diagnostics` (the balance text rendering is
abstracted by the exact-value `toString`). -/
def mkWarning (venue asset : String) (balance : ℚ) : Warning :=
  { type := "NEGATIVE_BALANCE"
    venue := venue
    asset := asset
    balance := balance
    msg := "Záporný zůstatek: " ++ asset ++ " na " ++ venue ++ " = " ++ toString balance }

namespace Store

/-- `LedgerStore.diagnostics`: one NEGATIVE_BALANCE warning for every
(venue, asset) entry of `venue_balances` whose balance is `< 0`, in iteration
order. -/
def diagnostics (s : Store) : List Warning :=
  (venue_balances s).flatMap (fun p =>
    (p.2.filter (fun q => decide (q.2 < 0))).map (fun q => mkWarning p.1 q.1 q.2))

/-- `LedgerStore.insert_pair`: two independent INSERT attempts inside one
transaction; each catches its own `IntegrityError`.  The second attempt sees
the first row (same connection), so duplicate detection is per-row. -/
def insert_pair (now : DateTime) (s : Store) (row_a row_b : RawRow) :
    (Bool × Bool) × Store :=
  let resA := insert now s row_a
  let resB := insert now resA.2 row_b
  ((resA.1, resB.1), resB.2)

/-- `LedgerStore.get_row_by_pk`: `pk` is the AUTOINCREMENT rowid, i.e. the
1-based insertion position. -/
def get_row_by_pk (s : Store) (pk : Nat) : Option RawRow :=
  if pk = 0 then none else (s[pk - 1]?).map rawOf

/-- `LedgerStore.get_rows_by_id`: all legs sharing an id, `ORDER BY timestamp
ASC` (stable: rowid order on ties). -/
def get_rows_by_id (s : Store) (row_id : String) : List RawRow :=
  ((s.filter (fun sr => decide (sr.id = row_id))).mergeSort rowLeB).map rawOf

/-- `LedgerStore.count`. -/
def count (s : Store) : Nat := s.length

end Store

/-- `create_trade` from core/trade.py.  The `uuid.uuid4()` shared id is the
explicit `shared_id` argument; `raise ValueError` is embedded as `.error`;
the negated leg amount is `Decimal` unary minus, i.e. `decNeg`. -/
def create_trade (shared_id : String) (timestamp : DateTime) (type_ : String)
    (asset : String) (asset_amount : ℚ) (currency : String)
    (currency_amount : ℚ) (venue : String) (price : Option ℚ)
    (note : Option String) : Except String (RawRow × RawRow) :=
  if type_ ≠ "BUY" ∧ type_ ≠ "SELL" then
    .error ("Trade type musí být BUY nebo SELL, dostal: " ++ type_)
  else
    let asset_sign : ℚ := if type_ = "BUY" then asset_amount else decNeg asset_amount
    let currency_sign : ℚ :=
      if type_ = "BUY" then decNeg currency_amount else currency_amount
    .ok
      ({ id := shared_id, timestamp := timestamp, type := type_, asset := asset,
         amount := asset_sign, currency := currency, price := price,
         venue := venue, note := note },
       { id := shared_id, timestamp := timestamp, type := type_, asset := currency,
         amount := currency_sign, currency := asset, price := price,
         venue := venue, note := note })

/-- `create_reversal` from core/reversal.py.  `new_id` is the auto-generated
uuid4 substituted by `__post_init__` for `id=None`; `now` is
`datetime.now()`, whose `.replace(microsecond=0)` truncation is applied
here; `-original.amount` is `Decimal` unary minus, i.e. `decNeg`. -/
def create_reversal (new_id : String) (now : DateTime) (original : RawRow)
    (notePfx : String) : RawRow :=
  { id := new_id
    timestamp := { sec := now.sec, micro := 0 }
    type := "REVERSAL"
    asset := original.asset
    amount := decNeg original.amount
    currency := original.currency
    price := original.price
    venue := original.venue
    note := some (notePfx ++ " " ++ original.id) }

/-- `create_reversal_pair` from core/reversal.py: one reversal per leg, each
with its own fresh id (`mkId i` is the uuid4 of the i-th constructed row). -/
def create_reversal_pair (mkId : Nat → String) (now : DateTime)
    (originals : List RawRow) (notePfx : String) : List RawRow :=
  originals.enum.map (fun p => create_reversal (mkId p.1) now p.2 notePfx)

/-- `OperationResult` from core/service.py. -/
structure OperationResult where
  success : Bool
  rows_inserted : Nat
  diagnostics : List Warning
  errors : List String
deriving DecidableEq

/-- The reversal rows `add_reversal` builds for a found original: the whole
pair when the caller asked for it and more than one row shares the id,
otherwise just the target row. -/
def reversalsFor (mkId : Nat → String) (now : DateTime) (s : Store)
    (original : RawRow) (reverse_pair : Bool) : List RawRow :=
  let pair := Store.get_rows_by_id s original.id
  if pair.length > 1 && reverse_pair then
    create_reversal_pair mkId now pair "reversal of"
  else
    [create_reversal (mkId 0) now original "reversal of"]

/-- The validation-error collection loop of `add_reversal`. -/
def reversalErrors (revs : List RawRow) : List String :=
  revs.foldl (fun acc rev =>
    if (validate_row rev).1 then acc else acc ++ (validate_row rev).2) []

/-- The insertion loop of `add_reversal`: each leg inserted independently,
counting successes. -/
def insertEach (now : DateTime) (s : Store) (revs : List RawRow) : Nat × Store :=
  revs.foldl (fun acc rev =>
    let res := Store.insert now acc.2 rev
    (if res.1 then acc.1 + 1 else acc.1, res.2)) (0, s)

/-- `LedgerService.add_reversal` from core/service.py, returning the result
together with the resulting store state. -/
def add_reversal (now : DateTime) (mkId : Nat → String) (s : Store) (pk : Nat)
    (reverse_pair : Bool) : OperationResult × Store :=
  match Store.get_row_by_pk s pk with
  | none =>
    ({ success := false, rows_inserted := 0, diagnostics := [],
       errors := ["Řádek pk=" ++ toString pk ++ " nenalezen."] }, s)
  | some original =>
    let revs := reversalsFor mkId now s original reverse_pair
    let all_errors := reversalErrors revs
    if all_errors ≠ [] then
      ({ success := false, rows_inserted := 0, diagnostics := [],
         errors := all_errors }, s)
    else
      let ins := insertEach now s revs
      if ins.1 = 0 then
        ({ success := false, rows_inserted := 0, diagnostics := [],
           errors := ["Všechny reversaly jsou duplikátní."] }, ins.2)
      else
        ({ success := true, rows_inserted := ins.1,
           diagnostics := Store.diagnostics ins.2, errors := [] }, ins.2)

/-- Store states reachable through the write operations `insert` and
`insert_pair` (every write path of the service funnels into these). -/
inductive Reachable : Store → Prop
  | empty : Reachable []
  | step_insert (now : DateTime) (r : RawRow) {s : Store} :
      Reachable s → Reachable (Store.insert now s r).2
  | step_pair (now : DateTime) (a b : RawRow) {s : Store} :
      Reachable s → Reachable (Store.insert_pair now s a b).2

/-! ### Concrete sample data (used in example conjuncts and witnesses) -/

/-- A fixed insertion instant. -/
def nowF : DateTime := ⟨1000, 0⟩

/-- 0.00000001 BTC, from the balance-exactness example in the spec. -/
def satRow1 : RawRow :=
  { timestamp := ⟨1000, 0⟩, type := "TRANSFER", asset := "BTC",
    amount := 1 / 100000000, currency := "EUR", price := none,
    venue := "kraken", note := none, id := "sat-1" }

/-- 0.00000002 BTC, from the balance-exactness example in the spec. -/
def satRow2 : RawRow :=
  { timestamp := ⟨1001, 0⟩, type := "TRANSFER", asset := "BTC",
    amount := 2 / 100000000, currency := "EUR", price := none,
    venue := "kraken", note := none, id := "sat-2" }

/-- A FEE of -100 EUR, from the negative-balance example in the spec. -/
def feeRow : RawRow :=
  { timestamp := ⟨1000, 0⟩, type := "FEE", asset := "EUR", amount := -100,
    currency := "EUR", price := none, venue := "kraken", note := none,
    id := "fee-1" }

/-- A sample BUY leg used by witnesses. -/
def buyRowA : RawRow :=
  { timestamp := ⟨1000, 0⟩, type := "BUY", asset := "btc", amount := 1 / 10,
    currency := "eur", price := none, venue := "Kraken", note := none,
    id := "trade-1" }

/-- A second sample row with equal fingerprint-relevant fields but a
different id, note and sub-second timestamp. -/
def buyRowB : RawRow :=
  { timestamp := ⟨1000, 500⟩, type := "BUY", asset := "btc", amount := 1 / 10,
    currency := "usd", price := some 50000, venue := "Kraken",
    note := some "other", id := "trade-2" }

/-- A trade row with an integer amount, used by the add_reversal witness. -/
def tradeRowI : RawRow :=
  { timestamp := ⟨1000, 0⟩, type := "BUY", asset := "BTC", amount := 7,
    currency := "EUR", price := none, venue := "kraken", note := none,
    id := "trade-7" }

/-- A deterministic stand-in for the uuid4 supply of reversal builders. -/
def mkId0 : Nat → String := fun n => "rev-" ++ toString n

/-- 1 EUR, a small prior movement (context-rounding counterexamples). -/
def eurOneRow : RawRow :=
  { timestamp := ⟨1000, 0⟩, type := "TRANSFER", asset := "EUR", amount := 1,
    currency := "EUR", price := none, venue := "kraken", note := none,
    id := "eur-1" }

/-- 1E+28 EUR: a 29-digit amount whose negation and whose sums round under
the 28-digit context. -/
def eurBigRow : RawRow :=
  { timestamp := ⟨1001, 0⟩, type := "TRANSFER", asset := "EUR",
    amount := 10 ^ 28, currency := "EUR", price := none, venue := "kraken",
    note := none, id := "eur-big" }

/-- 1E+28 BTC (balance-rounding counterexample, first insertion). -/
def bigRow : RawRow :=
  { timestamp := ⟨1000, 0⟩, type := "TRANSFER", asset := "BTC",
    amount := 10 ^ 28, currency := "EUR", price := none, venue := "kraken",
    note := none, id := "big-1" }

/-- 1 BTC (balance-rounding counterexample, second insertion). -/
def oneRowB : RawRow :=
  { timestamp := ⟨1001, 0⟩, type := "TRANSFER", asset := "BTC", amount := 1,
    currency := "EUR", price := none, venue := "kraken", note := none,
    id := "one-1" }

/-- +2 BTC (diagnostics counterexample, row 1). -/
def c8Row1 : RawRow :=
  { timestamp := ⟨1000, 0⟩, type := "TRANSFER", asset := "BTC", amount := 2,
    currency := "EUR", price := none, venue := "kraken", note := none,
    id := "c8-1" }

/-- +1E+28 BTC (diagnostics counterexample, row 2). -/
def c8Row2 : RawRow :=
  { timestamp := ⟨1001, 0⟩, type := "TRANSFER", asset := "BTC",
    amount := 10 ^ 28, currency := "EUR", price := none, venue := "kraken",
    note := none, id := "c8-2" }

/-- -1E+28 BTC (diagnostics counterexample, row 3). -/
def c8Row3 : RawRow :=
  { timestamp := ⟨1002, 0⟩, type := "TRANSFER", asset := "BTC",
    amount := -(10 ^ 28), currency := "EUR", price := none, venue := "kraken",
    note := none, id := "c8-3" }

/-- -1 BTC (diagnostics counterexample, row 4). -/
def c8Row4 : RawRow :=
  { timestamp := ⟨1003, 0⟩, type := "TRANSFER", asset := "BTC", amount := -1,
    currency := "EUR", price := none, venue := "kraken", note := none,
    id := "c8-4" }

/-- 1 EUR at venue `a` (venue-refinement counterexample). -/
def eurARow : RawRow :=
  { timestamp := ⟨1000, 0⟩, type := "TRANSFER", asset := "EUR", amount := 1,
    currency := "EUR", price := none, venue := "a", note := none,
    id := "va-1" }

/-- 1E+28 EUR at venue `b` (venue-refinement counterexample). -/
def eurBRow : RawRow :=
  { timestamp := ⟨1001, 0⟩, type := "TRANSFER", asset := "EUR",
    amount := 10 ^ 28, currency := "EUR", price := none, venue := "b",
    note := none, id := "vb-1" }

/-! ### Basic lemmas about the store -/

theorem fpPresent_append (s t : Store) (fp : String) :
    Store.fpPresent (s ++ t) fp = (Store.fpPresent s fp || Store.fpPresent t fp) := by
  simp [Store.fpPresent, List.any_append]

theorem insert_of_present {s : Store} {r : RawRow} (now : DateTime)
    (h : Store.fpPresent s r.fingerprint = true) :
    Store.insert now s r = (false, s) := by
  simp [Store.insert, h]

theorem insert_of_absent {s : Store} {r : RawRow} (now : DateTime)
    (h : Store.fpPresent s r.fingerprint = false) :
    Store.insert now s r = (true, s ++ [storedOf now r]) := by
  simp [Store.insert, h]

theorem fpPresent_insert {s : Store} {fp : String} (now : DateTime) (r : RawRow)
    (h : Store.fpPresent s fp = true) :
    Store.fpPresent (Store.insert now s r).2 fp = true := by
  by_cases hc : Store.fpPresent s r.fingerprint
  · rw [insert_of_present now hc]; exact h
  · rw [insert_of_absent now (by simpa using hc)]
    simp [fpPresent_append, h]

theorem fpPresent_insert_self (now : DateTime) (s : Store) (r : RawRow) :
    Store.fpPresent (Store.insert now s r).2 r.fingerprint = true := by
  by_cases hc : Store.fpPresent s r.fingerprint
  · rw [insert_of_present now hc]; exact hc
  · rw [insert_of_absent now (by simpa using hc)]
    simp [fpPresent_append, Store.fpPresent, storedOf]

theorem fpPresent_import {s : Store} {fp : String} (now : DateTime)
    (rows : List RawRow) (h : Store.fpPresent s fp = true) :
    Store.fpPresent (Store.import_rows now s rows).2 fp = true := by
  induction rows generalizing s with
  | nil => simpa [Store.import_rows] using h
  | cons r rest ih =>
    simp only [Store.import_rows]
    exact ih (fpPresent_insert now r h)

theorem fpPresent_import_mem {rows : List RawRow} {r : RawRow} (now : DateTime)
    (s : Store) (h : r ∈ rows) :
    Store.fpPresent (Store.import_rows now s rows).2 r.fingerprint = true := by
  induction rows generalizing s with
  | nil => cases h
  | cons a rest ih =>
    simp only [Store.import_rows]
    rcases List.mem_cons.mp h with heq | hmem
    · subst heq
      exact fpPresent_import now rest (fpPresent_insert_self now s r)
    · exact ih _ hmem

theorem import_all_dup {s : Store} {rows : List RawRow} (now : DateTime)
    (h : ∀ r ∈ rows, Store.fpPresent s r.fingerprint = true) :
    Store.import_rows now s rows = ((0, rows.length), s) := by
  induction rows generalizing s with
  | nil => simp [Store.import_rows]
  | cons r rest ih =>
    have hr := h r (List.mem_cons_self r rest)
    simp only [Store.import_rows, insert_of_present now hr]
    rw [ih (fun x hx => h x (List.mem_cons_of_mem r hx))]
    simp

/-! ### Evaluation toolkit for concrete inputs -/

theorem roundHalfEven_intCast (n : ℤ) : roundHalfEven (n : ℚ) = n := by
  unfold roundHalfEven
  rw [Int.floor_intCast]
  norm_num

/-- `adjExp` is the adjusted exponent: `10 ^ adjExp q ≤ |q| < 10 ^ (adjExp q + 1)`. -/
theorem adjExp_spec (q : ℚ) (hq : q ≠ 0) :
    (10 : ℚ) ^ adjExp q ≤ |q| ∧ |q| < 10 ^ (adjExp q + 1) := by
  have hn : q.num.natAbs ≠ 0 := by
    simpa [Int.natAbs_eq_zero] using Rat.num_ne_zero.mpr hq
  have hd0 : q.den ≠ 0 := q.den_nz
  have hd : (0 : ℚ) < (q.den : ℚ) := by exact_mod_cast q.pos
  have habs : |q| = (q.num.natAbs : ℚ) / (q.den : ℚ) := by
    conv_lhs => rw [← Rat.num_div_den q]
    rw [abs_div, abs_of_pos hd, Int.cast_natAbs, Int.cast_abs]
  have h1 : (10 : ℚ) ^ (Nat.log 10 q.num.natAbs) ≤ (q.num.natAbs : ℚ) := by
    exact_mod_cast Nat.pow_log_le_self 10 hn
  have h2 : (q.num.natAbs : ℚ) < 10 ^ (Nat.log 10 q.num.natAbs + 1) := by
    exact_mod_cast Nat.lt_pow_succ_log_self (by norm_num) q.num.natAbs
  have h3 : (10 : ℚ) ^ (Nat.log 10 q.den) ≤ (q.den : ℚ) := by
    exact_mod_cast Nat.pow_log_le_self 10 hd0
  have h4 : (q.den : ℚ) < 10 ^ (Nat.log 10 q.den + 1) := by
    exact_mod_cast Nat.lt_pow_succ_log_self (by norm_num) q.den
  have hten : (10 : ℚ) ≠ 0 := by norm_num
  have hub : |q| < 10 ^ ((Nat.log 10 q.num.natAbs : ℤ) - (Nat.log 10 q.den : ℤ) + 1) := by
    rw [habs, div_lt_iff₀ hd]
    have key : (10 : ℚ) ^ ((Nat.log 10 q.num.natAbs : ℤ) - (Nat.log 10 q.den : ℤ) + 1) *
        (q.den : ℚ) ≥ 10 ^ (Nat.log 10 q.num.natAbs + 1) := by
      have e1 : (10 : ℚ) ^ ((Nat.log 10 q.num.natAbs : ℤ) - (Nat.log 10 q.den : ℤ) + 1) *
          10 ^ ((Nat.log 10 q.den : ℤ)) = 10 ^ ((Nat.log 10 q.num.natAbs : ℤ) + 1) := by
        rw [← zpow_add₀ hten]
        ring_nf
      calc (10 : ℚ) ^ ((Nat.log 10 q.num.natAbs : ℤ) - (Nat.log 10 q.den : ℤ) + 1) *
            (q.den : ℚ)
          ≥ 10 ^ ((Nat.log 10 q.num.natAbs : ℤ) - (Nat.log 10 q.den : ℤ) + 1) *
            10 ^ ((Nat.log 10 q.den : ℤ)) := by
            apply mul_le_mul_of_nonneg_left _ (le_of_lt (zpow_pos (by norm_num) _))
            rw [zpow_natCast]
            exact h3
        _ = 10 ^ ((Nat.log 10 q.num.natAbs : ℤ) + 1) := e1
        _ = 10 ^ (Nat.log 10 q.num.natAbs + 1) := by
            rw [← zpow_natCast]
            push_cast
            ring_nf
    exact lt_of_lt_of_le h2 key
  have hlb : (10 : ℚ) ^ ((Nat.log 10 q.num.natAbs : ℤ) - (Nat.log 10 q.den : ℤ) - 1) ≤ |q| := by
    rw [habs, le_div_iff₀ hd]
    have key : (10 : ℚ) ^ ((Nat.log 10 q.num.natAbs : ℤ) - (Nat.log 10 q.den : ℤ) - 1) *
        (q.den : ℚ) ≤ 10 ^ ((Nat.log 10 q.num.natAbs : ℤ)) := by
      have e1 : (10 : ℚ) ^ ((Nat.log 10 q.num.natAbs : ℤ) - (Nat.log 10 q.den : ℤ) - 1) *
          10 ^ ((Nat.log 10 q.den : ℤ) + 1) = 10 ^ ((Nat.log 10 q.num.natAbs : ℤ)) := by
        rw [← zpow_add₀ hten]
        ring_nf
      calc (10 : ℚ) ^ ((Nat.log 10 q.num.natAbs : ℤ) - (Nat.log 10 q.den : ℤ) - 1) *
            (q.den : ℚ)
          ≤ 10 ^ ((Nat.log 10 q.num.natAbs : ℤ) - (Nat.log 10 q.den : ℤ) - 1) *
            10 ^ ((Nat.log 10 q.den : ℤ) + 1) := by
            apply mul_le_mul_of_nonneg_left _ (le_of_lt (zpow_pos (by norm_num) _))
            have : ((Nat.log 10 q.den : ℤ) + 1) = ((Nat.log 10 q.den + 1 : ℕ) : ℤ) := by
              push_cast; ring
            rw [this, zpow_natCast]
            exact le_of_lt h4
        _ = 10 ^ ((Nat.log 10 q.num.natAbs : ℤ)) := e1
    have h1z : (10 : ℚ) ^ ((Nat.log 10 q.num.natAbs : ℤ)) ≤ (q.num.natAbs : ℚ) := by
      rw [zpow_natCast]
      exact h1
    exact le_trans key h1z
  unfold adjExp
  by_cases hc : (10 : ℚ) ^ ((Nat.log 10 q.num.natAbs : ℤ) - (Nat.log 10 q.den : ℤ)) ≤ |q|
  · rw [if_pos hc]
    exact ⟨hc, hub⟩
  · rw [if_neg hc]
    constructor
    · exact hlb
    · have h5 : ((Nat.log 10 q.num.natAbs : ℤ) - (Nat.log 10 q.den : ℤ) - 1 + 1) =
          ((Nat.log 10 q.num.natAbs : ℤ) - (Nat.log 10 q.den : ℤ)) := by ring
      rw [h5]
      exact not_le.mp hc

/-- Context rounding is the identity on any value with at most 28 significant
digits: `roundPrec (m * 10 ^ j) = m * 10 ^ j` whenever `|m| < 10 ^ 28`. -/
theorem roundPrec_sci (m j : ℤ) (hm : |m| < 10 ^ 28) :
    roundPrec ((m : ℚ) * 10 ^ j) = (m : ℚ) * 10 ^ j := by
  by_cases hm0 : m = 0
  · simp [hm0, roundPrec]
  have hten : (10 : ℚ) ≠ 0 := by norm_num
  have hq : (m : ℚ) * 10 ^ j ≠ 0 :=
    mul_ne_zero (Int.cast_ne_zero.mpr hm0) (zpow_ne_zero _ hten)
  unfold roundPrec
  rw [if_neg hq]
  have ha := (adjExp_spec ((m : ℚ) * 10 ^ j) hq).1
  have hub : |(m : ℚ) * 10 ^ j| < 10 ^ ((28 : ℤ) + j) := by
    rw [abs_mul, abs_of_pos (zpow_pos (by norm_num : (0:ℚ) < 10) j)]
    have hmq : |(m : ℚ)| < 10 ^ (28 : ℕ) := by
      rw [← Int.cast_abs]
      exact_mod_cast hm
    calc |(m : ℚ)| * 10 ^ j < 10 ^ (28 : ℕ) * 10 ^ j := by
          exact mul_lt_mul_of_pos_right hmq (zpow_pos (by norm_num) j)
      _ = 10 ^ ((28 : ℤ) + j) := by
          rw [← zpow_natCast (10:ℚ) 28, ← zpow_add₀ hten]
          norm_num
  have haj : adjExp ((m : ℚ) * 10 ^ j) ≤ 27 + j := by
    by_contra hcon
    push_neg at hcon
    have h28 : (28 : ℤ) + j ≤ adjExp ((m : ℚ) * 10 ^ j) := by omega
    have : (10 : ℚ) ^ ((28 : ℤ) + j) ≤ 10 ^ (adjExp ((m : ℚ) * 10 ^ j)) := by
      apply zpow_le_zpow_right₀ (by norm_num) h28
    linarith [ha, hub]
  set a := adjExp ((m : ℚ) * 10 ^ j) with hadef
  have hknn : 0 ≤ j - a + 27 := by omega
  have hint : (m : ℚ) * 10 ^ j / 10 ^ (a - 27) =
      ((m * 10 ^ (j - a + 27).toNat : ℤ) : ℚ) := by
    push_cast
    rw [← zpow_natCast (10:ℚ) (j - a + 27).toNat, Int.toNat_of_nonneg hknn]
    rw [div_eq_iff (zpow_ne_zero _ hten), mul_assoc, ← zpow_add₀ hten]
    ring_nf
  rw [hint, roundHalfEven_intCast]
  rw [← hint]
  exact div_mul_cancel₀ _ (zpow_ne_zero _ hten)

theorem roundPrec_zero : roundPrec 0 = 0 := by simp [roundPrec]

/-- `Decimal` addition is exact whenever the exact sum fits in 28 significant
digits. -/
theorem decAdd_sci (x y : ℚ) (m j : ℤ) (hm : |m| < 10 ^ 28)
    (h : x + y = (m : ℚ) * 10 ^ j) : decAdd x y = x + y := by
  unfold decAdd
  rw [h]
  exact roundPrec_sci m j hm

/-- `Decimal` negation is exact whenever the value fits in 28 significant
digits. -/
theorem decNeg_sci (x : ℚ) (m j : ℤ) (hm : |m| < 10 ^ 28)
    (h : -x = (m : ℚ) * 10 ^ j) : decNeg x = -x := by
  unfold decNeg
  rw [h]
  exact roundPrec_sci m j hm

theorem adjExp_intCast_29 (c : ℤ) (hlo : 10 ^ 28 ≤ |c|) (hhi : |c| < 10 ^ 29) :
    adjExp ((c : ℚ)) = 28 := by
  have hnum : ((c : ℚ)).num = c := Rat.num_intCast c
  have hden : ((c : ℚ)).den = 1 := Rat.den_intCast c
  have h10z : (10 : ℤ) ^ 28 = 10000000000000000000000000000 := by norm_num
  have h10z9 : (10 : ℤ) ^ 29 = 100000000000000000000000000000 := by norm_num
  have habs_n : |c| = (c.natAbs : ℤ) := Int.abs_eq_natAbs c
  have hlog : Nat.log 10 ((c : ℚ)).num.natAbs = 28 := by
    rw [hnum]
    apply Nat.log_eq_of_pow_le_of_lt_pow
    · have : (10 : ℕ) ^ 28 = 10000000000000000000000000000 := by norm_num
      omega
    · have : (10 : ℕ) ^ 29 = 100000000000000000000000000000 := by norm_num
      omega
  have habs : |(c : ℚ)| = ((|c| : ℤ) : ℚ) := Int.cast_abs.symm
  have hlo2 : (10000000000000000000000000000 : ℤ) ≤ |c| := by omega
  unfold adjExp
  rw [hlog, hden]
  simp only [Nat.log_one_right, Nat.cast_zero]
  norm_num
  rw [habs]
  exact_mod_cast hlo2

/-- The first digit beyond the context precision is lost: for small positive
`k`, `10 ^ 28 + k` rounds down to `1E+28`. -/
theorem roundPrec_pow28_add (k : ℤ) (hk : 0 < k) (hk5 : k < 5) :
    roundPrec (((10 ^ 28 + k : ℤ) : ℚ)) = 10 ^ 28 := by
  have hq : ((10 ^ 28 + k : ℤ) : ℚ) ≠ 0 := by
    have : (0:ℤ) < 10 ^ 28 + k := by positivity
    exact_mod_cast this.ne'
  have h10zp : (10 : ℤ) ^ 28 = 10000000000000000000000000000 := by norm_num
  have h10zp9 : (10 : ℤ) ^ 29 = 100000000000000000000000000000 := by norm_num
  have habsval : |(10 ^ 28 + k : ℤ)| = 10 ^ 28 + k := abs_of_pos (by positivity)
  have ha : adjExp ((10 ^ 28 + k : ℤ) : ℚ) = 28 := by
    apply adjExp_intCast_29 <;> rw [habsval] <;> omega
  have hkq0 : (0:ℚ) < (k : ℚ) := by exact_mod_cast hk
  have hkq5 : (k : ℚ) < 5 := by exact_mod_cast hk5
  have hfl : ⌊((10 ^ 28 + k : ℤ) : ℚ) / 10⌋ = 10 ^ 27 := by
    rw [Int.floor_eq_iff]
    constructor
    · push_cast
      rw [le_div_iff₀ (by norm_num : (0:ℚ) < 10)]
      linarith
    · push_cast
      rw [div_lt_iff₀ (by norm_num : (0:ℚ) < 10)]
      linarith
  have hcond : ((10 ^ 28 + k : ℤ) : ℚ) / 10 - (((10:ℤ) ^ 27 : ℤ) : ℚ) < 1 / 2 := by
    rw [sub_lt_iff_lt_add, div_lt_iff₀ (by norm_num : (0:ℚ) < 10)]
    push_cast
    linarith
  unfold roundPrec
  rw [if_neg hq, ha]
  have hexp : (28 : ℤ) - 27 = 1 := by norm_num
  rw [hexp, zpow_one]
  unfold roundHalfEven
  rw [hfl]
  rw [if_pos (by exact_mod_cast hcond)]
  push_cast
  ring

/-- The negative mirror image: `-(10 ^ 28 + k)` rounds to `-1E+28` for small
positive `k` (rounding is value-symmetric in sign). -/
theorem roundPrec_neg_pow28_add (k : ℤ) (hk : 0 < k) (hk5 : k < 5) :
    roundPrec (((-(10 ^ 28 + k) : ℤ) : ℚ)) = -(10 ^ 28) := by
  have hkq0 : (0:ℚ) < (k : ℚ) := by exact_mod_cast hk
  have hkq5 : (k : ℚ) < 5 := by exact_mod_cast hk5
  have hq : ((-(10 ^ 28 + k) : ℤ) : ℚ) ≠ 0 := by
    have h0 : (-(10 ^ 28 + k) : ℤ) < 0 := by omega
    exact_mod_cast h0.ne
  have h10z : (10 : ℤ) ^ 28 = 10000000000000000000000000000 := by norm_num
  have h10z9 : (10 : ℤ) ^ 29 = 100000000000000000000000000000 := by norm_num
  have habsval : |(-(10 ^ 28 + k) : ℤ)| = 10 ^ 28 + k := by
    rw [abs_of_neg (by omega : (-(10 ^ 28 + k) : ℤ) < 0)]
    ring
  have ha : adjExp ((-(10 ^ 28 + k) : ℤ) : ℚ) = 28 := by
    apply adjExp_intCast_29 <;> rw [habsval] <;> omega
  have hfl : ⌊((-(10 ^ 28 + k) : ℤ) : ℚ) / 10⌋ = -(10 ^ 27) - 1 := by
    rw [Int.floor_eq_iff]
    constructor
    · push_cast
      rw [le_div_iff₀ (by norm_num : (0:ℚ) < 10)]
      linarith
    · push_cast
      rw [div_lt_iff₀ (by norm_num : (0:ℚ) < 10)]
      linarith
  have hdiff : ((-(10 ^ 28 + k) : ℤ) : ℚ) / 10 - ((-(10 ^ 27) - 1 : ℤ) : ℚ) =
      1 - (k : ℚ) / 10 := by
    push_cast
    ring
  unfold roundPrec
  rw [if_neg hq, ha]
  have hexp : (28 : ℤ) - 27 = 1 := by norm_num
  rw [hexp, zpow_one]
  unfold roundHalfEven
  rw [hfl]
  rw [if_neg (by rw [hdiff]; intro hcon; linarith), if_pos (by rw [hdiff]; linarith)]
  push_cast
  ring

theorem fmt8_of_mul (q : ℚ) (n : ℤ) (h : q * 100000000 = (n : ℚ)) :
    fmt8 q = (if n < 0 then "-" else "")
      ++ toString (n.natAbs / 100000000) ++ "." ++ pad8 (n.natAbs % 100000000) := by
  unfold fmt8
  rw [h, roundHalfEven_intCast]

theorem fingerprint_def (r : RawRow) :
    r.fingerprint = toString r.timestamp.sec ++ upperStr r.type ++ lowerStr r.venue
      ++ upperStr r.asset ++ fmt8 r.amount := rfl

theorem fp_satRow1 : satRow1.fingerprint = "1000TRANSFERkrakenBTC0.00000001" := by
  rw [fingerprint_def, fmt8_of_mul _ 1 (by norm_num [satRow1])]
  decide

theorem fp_satRow2 : satRow2.fingerprint = "1001TRANSFERkrakenBTC0.00000002" := by
  rw [fingerprint_def, fmt8_of_mul _ 2 (by norm_num [satRow2])]
  decide

theorem fp_feeRow : feeRow.fingerprint = "1000FEEkrakenEUR-100.00000000" := by
  rw [fingerprint_def, fmt8_of_mul _ (-10000000000) (by norm_num [feeRow])]
  decide

theorem fp_buyRowA : buyRowA.fingerprint = "1000BUYkrakenBTC0.10000000" := by
  rw [fingerprint_def, fmt8_of_mul _ 10000000 (by norm_num [buyRowA])]
  decide

theorem revA_amount :
    (create_reversal "rev-0" ⟨2000, 0⟩ buyRowA "reversal of").amount = -(1/10) := by
  show decNeg buyRowA.amount = -(1/10)
  rw [decNeg_sci buyRowA.amount (-1) (-1) (by norm_num) (by norm_num [buyRowA])]
  norm_num [buyRowA]

theorem fp_revA :
    (create_reversal "rev-0" ⟨2000, 0⟩ buyRowA "reversal of").fingerprint =
      "2000REVERSALkrakenBTC-0.10000000" := by
  rw [fingerprint_def, revA_amount, fmt8_of_mul _ (-10000000) (by norm_num)]
  decide

theorem fp_eurOneRow :
    eurOneRow.fingerprint = "1000TRANSFERkrakenEUR1.00000000" := by
  rw [fingerprint_def, fmt8_of_mul _ 100000000 (by norm_num [eurOneRow])]
  decide

theorem fp_eurBigRow :
    eurBigRow.fingerprint =
      "1001TRANSFERkrakenEUR10000000000000000000000000000.00000000" := by
  rw [fingerprint_def, fmt8_of_mul _ 1000000000000000000000000000000000000
    (by norm_num [eurBigRow])]
  decide

theorem revBig_amount :
    (create_reversal "rev-0" ⟨2000, 0⟩ eurBigRow "reversal of").amount =
      -(10 ^ 28) := by
  show decNeg eurBigRow.amount = -(10 ^ 28)
  rw [decNeg_sci eurBigRow.amount (-1) 28 (by norm_num) (by norm_num [eurBigRow])]
  norm_num [eurBigRow]

theorem fp_revBig :
    (create_reversal "rev-0" ⟨2000, 0⟩ eurBigRow "reversal of").fingerprint =
      "2000REVERSALkrakenEUR-10000000000000000000000000000.00000000" := by
  rw [fingerprint_def, revBig_amount,
    fmt8_of_mul _ (-1000000000000000000000000000000000000) (by norm_num)]
  decide

theorem fp_bigRow :
    bigRow.fingerprint =
      "1000TRANSFERkrakenBTC10000000000000000000000000000.00000000" := by
  rw [fingerprint_def, fmt8_of_mul _ 1000000000000000000000000000000000000
    (by norm_num [bigRow])]
  decide

theorem fp_oneRowB :
    oneRowB.fingerprint = "1001TRANSFERkrakenBTC1.00000000" := by
  rw [fingerprint_def, fmt8_of_mul _ 100000000 (by norm_num [oneRowB])]
  decide

theorem fp_c8Row1 :
    c8Row1.fingerprint = "1000TRANSFERkrakenBTC2.00000000" := by
  rw [fingerprint_def, fmt8_of_mul _ 200000000 (by norm_num [c8Row1])]
  decide

theorem fp_c8Row2 :
    c8Row2.fingerprint =
      "1001TRANSFERkrakenBTC10000000000000000000000000000.00000000" := by
  rw [fingerprint_def, fmt8_of_mul _ 1000000000000000000000000000000000000
    (by norm_num [c8Row2])]
  decide

theorem fp_c8Row3 :
    c8Row3.fingerprint =
      "1002TRANSFERkrakenBTC-10000000000000000000000000000.00000000" := by
  rw [fingerprint_def, fmt8_of_mul _ (-1000000000000000000000000000000000000)
    (by norm_num [c8Row3])]
  decide

theorem fp_c8Row4 :
    c8Row4.fingerprint = "1003TRANSFERkrakenBTC-1.00000000" := by
  rw [fingerprint_def, fmt8_of_mul _ (-100000000) (by norm_num [c8Row4])]
  decide

theorem fp_eurARow :
    eurARow.fingerprint = "1000TRANSFERaEUR1.00000000" := by
  rw [fingerprint_def, fmt8_of_mul _ 100000000 (by norm_num [eurARow])]
  decide

theorem fp_eurBRow :
    eurBRow.fingerprint =
      "1001TRANSFERbEUR10000000000000000000000000000.00000000" := by
  rw [fingerprint_def, fmt8_of_mul _ 1000000000000000000000000000000000000
    (by norm_num [eurBRow])]
  decide

/-! ### Claim theorems: C1, C2, C3 -/

/-- C1: `insert(r)` returns `false` exactly when a row with `r`'s fingerprint
is already persisted, leaving the store unchanged, and returns `true` exactly
when `r` was persisted (appended); duplicates never raise.  Consequently a
second `import_rows` of the same row list inserts 0 and skips all of them. -/
theorem insert_duplicate_and_import_idempotent (now : DateTime) (s : Store)
    (r : RawRow) :
    ((Store.insert now s r).1 = false ↔ Store.fpPresent s r.fingerprint = true) ∧
    ((Store.insert now s r).1 = false → (Store.insert now s r).2 = s) ∧
    ((Store.insert now s r).1 = true →
      (Store.insert now s r).2 = s ++ [storedOf now r]) ∧
    (∀ (rows : List RawRow) (n1 n2 : DateTime),
      (Store.import_rows n2 (Store.import_rows n1 s rows).2 rows).1 =
        (0, rows.length)) := by
  refine ⟨?_, ?_, ?_, ?_⟩
  · by_cases hc : Store.fpPresent s r.fingerprint
    · rw [insert_of_present now hc]; simp [hc]
    · rw [insert_of_absent now (by simpa using hc)]; simpa using hc
  · intro h
    by_cases hc : Store.fpPresent s r.fingerprint
    · rw [insert_of_present now hc]
    · rw [insert_of_absent now (by simpa using hc)] at h ⊢
      simp at h
  · intro h
    by_cases hc : Store.fpPresent s r.fingerprint
    · rw [insert_of_present now hc] at h; simp at h
    · rw [insert_of_absent now (by simpa using hc)]
  · intro rows n1 n2
    rw [import_all_dup n2 (fun x hx => fpPresent_import_mem n1 s hx)]

/-- C2: the fingerprint is a deterministic function of exactly the
second-precision timestamp, type, venue, asset and amount: two rows agreeing
on those five fields (whatever their `id`, `note`, `price`, `currency` or
sub-second time) have equal fingerprints. -/
theorem fingerprint_deterministic (r1 r2 : RawRow)
    (hts : r1.timestamp.sec = r2.timestamp.sec) (hty : r1.type = r2.type)
    (hv : r1.venue = r2.venue) (ha : r1.asset = r2.asset)
    (ham : r1.amount = r2.amount) :
    r1.fingerprint = r2.fingerprint := by
  simp [RawRow.fingerprint, hts, hty, hv, ha, ham]

/-- C3 (corrected): `create_trade` with BUY yields two rows sharing the
freshly generated id, the asset leg at `+asset_amount` and the currency leg
at the `Decimal`-negated amount `decNeg currency_amount` — equal to the exact
`-currency_amount` whenever the amount fits in 28 significant digits, but
context-rounded beyond that; SELL negates the asset leg instead; each leg's
`currency` equals the other leg's `asset`; any other type fails with the
raised `ValueError` and produces no rows. -/
theorem create_trade_spec (shared_id : String) (ts : DateTime)
    (type_ asset : String) (asset_amount : ℚ) (currency : String)
    (currency_amount : ℚ) (venue : String) (price : Option ℚ)
    (note : Option String) (hA : 0 < asset_amount) (hC : 0 < currency_amount) :
    (type_ = "BUY" →
      ∃ ra rc, create_trade shared_id ts type_ asset asset_amount currency
          currency_amount venue price note = .ok (ra, rc) ∧
        ra.id = shared_id ∧ rc.id = shared_id ∧
        ra.asset = asset ∧ ra.amount = asset_amount ∧
        rc.asset = currency ∧ rc.amount = decNeg currency_amount ∧
        ra.currency = rc.asset ∧ rc.currency = ra.asset) ∧
    (type_ = "SELL" →
      ∃ ra rc, create_trade shared_id ts type_ asset asset_amount currency
          currency_amount venue price note = .ok (ra, rc) ∧
        ra.id = shared_id ∧ rc.id = shared_id ∧
        ra.asset = asset ∧ ra.amount = decNeg asset_amount ∧
        rc.asset = currency ∧ rc.amount = currency_amount ∧
        ra.currency = rc.asset ∧ rc.currency = ra.asset) ∧
    (type_ ≠ "BUY" → type_ ≠ "SELL" →
      create_trade shared_id ts type_ asset asset_amount currency
          currency_amount venue price note =
        .error ("Trade type musí být BUY nebo SELL, dostal: " ++ type_)) ∧
    (∀ x : ℚ, ∀ m j : ℤ, |m| < 10 ^ 28 → -x = (m : ℚ) * 10 ^ j →
      decNeg x = -x) := by
  refine ⟨?_, ?_, ?_, fun x m j hm h => decNeg_sci x m j hm h⟩
  · intro h; subst h
    refine ⟨{ timestamp := ts, type := "BUY", asset := asset,
              amount := asset_amount, currency := currency, price := price,
              venue := venue, note := note, id := shared_id },
            { timestamp := ts, type := "BUY", asset := currency,
              amount := decNeg currency_amount, currency := asset, price := price,
              venue := venue, note := note, id := shared_id },
            ?_, rfl, rfl, rfl, rfl, rfl, rfl, rfl, rfl⟩
    simp [create_trade]
  · intro h; subst h
    refine ⟨{ timestamp := ts, type := "SELL", asset := asset,
              amount := decNeg asset_amount, currency := currency, price := price,
              venue := venue, note := note, id := shared_id },
            { timestamp := ts, type := "SELL", asset := currency,
              amount := currency_amount, currency := asset, price := price,
              venue := venue, note := note, id := shared_id },
            ?_, rfl, rfl, rfl, rfl, rfl, rfl, rfl, rfl⟩
    simp [create_trade]
  · intro h1 h2
    simp [create_trade, h1, h2]

/-- With `currency_amount = 10 ^ 28 + 1` (29 significant digits) the BUY
currency leg carries `-1E+28`, not the exact `-(10 ^ 28 + 1)`: the unary
minus in `create_trade` rounds under the default context. -/
theorem create_trade_spec_counterexample :
    ∃ ra rc, create_trade "tid" ⟨1000, 0⟩ "BUY" "BTC" 1 "EUR" (10 ^ 28 + 1)
        "kraken" none none = .ok (ra, rc) ∧
      rc.amount = -(10 ^ 28) ∧ rc.amount ≠ -(10 ^ 28 + 1) := by
  have hneg : decNeg ((10 : ℚ) ^ 28 + 1) = -(10 ^ 28) := by
    unfold decNeg
    rw [show -((10 : ℚ) ^ 28 + 1) = ((-(10 ^ 28 + 1) : ℤ) : ℚ) from by
        push_cast; ring,
      roundPrec_neg_pow28_add 1 (by norm_num) (by norm_num)]
  refine ⟨{ timestamp := ⟨1000, 0⟩, type := "BUY", asset := "BTC",
            amount := 1, currency := "EUR", price := none, venue := "kraken",
            note := none, id := "tid" },
          { timestamp := ⟨1000, 0⟩, type := "BUY", asset := "EUR",
            amount := decNeg (10 ^ 28 + 1), currency := "BTC", price := none,
            venue := "kraken", note := none, id := "tid" }, ?_, hneg, ?_⟩
  · simp [create_trade]
  · show decNeg ((10 : ℚ) ^ 28 + 1) ≠ -(10 ^ 28 + 1)
    rw [hneg]
    norm_num

/-! ### Timeline ordering (C7) -/

theorem rowLeB_trans (a b c : StoredRow) (h1 : Store.rowLeB a b = true)
    (h2 : Store.rowLeB b c = true) : Store.rowLeB a c = true := by
  simp only [Store.rowLeB, tsLeB, decide_eq_true_eq] at h1 h2 ⊢
  omega

theorem rowLeB_total (a b : StoredRow) :
    (Store.rowLeB a b || Store.rowLeB b a) = true := by
  simp only [Store.rowLeB, tsLeB, Bool.or_eq_true, decide_eq_true_eq]
  omega

/-- C7: `timeline()` returns all persisted rows (a permutation of the store
contents), with non-decreasing timestamps, and ties kept in insertion
order (any two rows with equal timestamps keep their relative order). -/
theorem timeline_sorted (s : Store) :
    (Store.timeline s).Perm (s.map rawOf) ∧
    (Store.timeline s).Pairwise
      (fun r1 r2 => tsLeB r1.timestamp r2.timestamp = true) ∧
    (∀ a b : StoredRow, a.timestamp = b.timestamp → [a, b].Sublist s →
      [rawOf a, rawOf b].Sublist (Store.timeline s)) := by
  refine ⟨?_, ?_, ?_⟩
  · exact (List.mergeSort_perm s Store.rowLeB).map rawOf
  · have hs := List.sorted_mergeSort rowLeB_trans rowLeB_total s
    rw [Store.timeline, List.pairwise_map]
    exact hs.imp (fun h => h)
  · intro a b hts hsub
    have hab : Store.rowLeB a b = true := by
      simp [Store.rowLeB, tsLeB, hts]
    have h2 := List.pair_sublist_mergeSort rowLeB_trans rowLeB_total hab hsub
    exact h2.map rawOf

/-! ### Association-list lemmas for the balance dictionaries -/

theorem lookupD_upsert {β : Type} (m : List (String × β)) (k k' : String)
    (v : β) (d : β) :
    lookupD (upsert m k v) k' d = if k = k' then v else lookupD m k' d := by
  induction m with
  | nil => simp [upsert, lookupD]
  | cons p rest ih =>
    by_cases hp : p.1 = k
    · by_cases hk : k = k'
      · simp [upsert, hp, lookupD, hp.trans hk, hk]
      · have hp' : ¬ p.1 = k' := fun h => hk (hp.symm.trans h)
        simp [upsert, hp, lookupD, hp', hk]
    · by_cases hq : p.1 = k'
      · have hk : ¬ k = k' := fun h => hp (hq.trans h.symm)
        have hk2 : ¬ k' = k := fun h => hk h.symm
        simp [upsert, hp, lookupD, hq, hk, hk2]
      · simp [upsert, hp, lookupD, hq, ih]

theorem abStep_eval (m : List (String × ℚ)) (sr : StoredRow) :
    Store.abStep m sr =
      upsert m sr.asset (decAdd (lookupD m sr.asset 0) sr.amount) := rfl

theorem vbStep_eval (m : List (String × List (String × ℚ))) (sr : StoredRow) :
    Store.vbStep m sr =
      upsert m sr.venue (upsert (lookupD m sr.venue []) sr.asset
        (decAdd (lookupD (lookupD m sr.venue []) sr.asset 0) sr.amount)) := rfl

theorem lookupD_cons_self {β : Type} (k : String) (v : β)
    (rest : List (String × β)) (d : β) :
    lookupD ((k, v) :: rest) k d = v := by
  simp [lookupD]

theorem assetLe_trans (x y z : StoredRow) (h1 : decide (x.asset ≤ y.asset) = true)
    (h2 : decide (y.asset ≤ z.asset) = true) : decide (x.asset ≤ z.asset) = true := by
  simp only [decide_eq_true_eq] at h1 h2 ⊢
  exact le_trans h1 h2

theorem assetLe_total (x y : StoredRow) :
    (decide (x.asset ≤ y.asset) || decide (y.asset ≤ x.asset)) = true := by
  simp only [Bool.or_eq_true, decide_eq_true_eq]
  exact le_total x.asset y.asset

theorem venueLe_trans (x y z : StoredRow)
    (h1 : (x.venue < y.venue || (x.venue == y.venue && x.asset ≤ y.asset)) = true)
    (h2 : (y.venue < z.venue || (y.venue == z.venue && y.asset ≤ z.asset)) = true) :
    (x.venue < z.venue || (x.venue == z.venue && x.asset ≤ z.asset)) = true := by
  simp only [Bool.or_eq_true, Bool.and_eq_true, beq_iff_eq, decide_eq_true_eq]
    at h1 h2 ⊢
  rcases h1 with h1 | ⟨he1, ha1⟩
  · rcases h2 with h2 | ⟨he2, ha2⟩
    · exact Or.inl (lt_trans h1 h2)
    · exact Or.inl (he2 ▸ h1)
  · rcases h2 with h2 | ⟨he2, ha2⟩
    · refine Or.inl ?_
      rw [he1]
      exact h2
    · exact Or.inr ⟨he1.trans he2, le_trans ha1 ha2⟩

theorem venueLe_total (x y : StoredRow) :
    ((x.venue < y.venue || (x.venue == y.venue && x.asset ≤ y.asset)) ||
     (y.venue < x.venue || (y.venue == x.venue && y.asset ≤ x.asset))) = true := by
  simp only [Bool.or_eq_true, Bool.and_eq_true, beq_iff_eq, decide_eq_true_eq]
  rcases lt_trichotomy x.venue y.venue with h | h | h
  · exact Or.inl (Or.inl h)
  · rcases le_total x.asset y.asset with ha | ha
    · exact Or.inl (Or.inr ⟨h, ha⟩)
    · exact Or.inr (Or.inr ⟨h.symm, ha⟩)
  · exact Or.inr (Or.inl h)

/-- A stable sort keeps the relative order of any class of mutually
tied elements: filtering the sorted list by a predicate whose holders are
pairwise `le` gives the same list as filtering the input. -/
theorem filter_mergeSort_eq {α : Type} (le : α → α → Bool) (p : α → Bool)
    (trans : ∀ (a b c : α), le a b → le b c → le a c)
    (total : ∀ (a b : α), le a b || le b a)
    (l : List α) (h : ∀ a b, p a = true → p b = true → le a b = true) :
    (l.mergeSort le).filter p = l.filter p := by
  have hpw : (l.filter p).Pairwise (fun a b => le a b) :=
    List.pairwise_of_forall_mem_list (fun a ha b hb =>
      h a b (List.of_mem_filter ha) (List.of_mem_filter hb))
  have hsub : (l.filter p).Sublist (l.mergeSort le) :=
    List.sublist_mergeSort trans total hpw (List.filter_sublist l)
  have hsub2 := List.Sublist.filter p hsub
  have heq : (l.filter p).filter p = l.filter p := by
    rw [List.filter_filter]
    exact List.filter_congr (fun a _ => by cases hp : p a <;> simp [hp])
  rw [heq] at hsub2
  have hlen : ((l.mergeSort le).filter p).length = (l.filter p).length :=
    ((List.mergeSort_perm l le).filter p).length_eq
  exact (hsub2.eq_of_length hlen.symm).symm

theorem lookupD_foldl_abStep (l : List StoredRow) (m : List (String × ℚ))
    (a : String) :
    lookupD (l.foldl Store.abStep m) a 0 =
      ((l.filter (fun sr => decide (sr.asset = a))).map StoredRow.amount).foldl
        decAdd (lookupD m a 0) := by
  induction l generalizing m with
  | nil => simp
  | cons sr rest ih =>
    rw [List.foldl_cons, ih]
    by_cases h : sr.asset = a
    · rw [List.filter_cons_of_pos (by simpa using h), List.map_cons, List.foldl_cons,
        abStep_eval, lookupD_upsert, if_pos h, h]
    · rw [List.filter_cons_of_neg (by simpa using h), abStep_eval, lookupD_upsert,
        if_neg h]

/-- The value of `asset_balances` at any key is the left fold of the
context-rounded additions (`decAdd`) over the stored amounts of the rows with
that asset, in insertion order. -/
theorem asset_balances_lookup (s : Store) (a : String) :
    lookupD (Store.asset_balances s) a 0 =
      ((s.filter (fun sr => decide (sr.asset = a))).map StoredRow.amount).foldl
        decAdd 0 := by
  unfold Store.asset_balances
  rw [lookupD_foldl_abStep,
    filter_mergeSort_eq _ _ assetLe_trans assetLe_total s
      (fun x y hx hy => by
        simp only [decide_eq_true_eq] at hx hy ⊢
        exact le_of_eq (hx.trans hy.symm))]
  rfl

theorem lookupD_foldl_vbStep (l : List StoredRow)
    (m : List (String × List (String × ℚ))) (v a : String) :
    lookupD (lookupD (l.foldl Store.vbStep m) v []) a 0 =
      ((l.filter (fun sr => decide (sr.venue = v) && decide (sr.asset = a))).map
        StoredRow.amount).foldl decAdd (lookupD (lookupD m v []) a 0) := by
  induction l generalizing m with
  | nil => simp
  | cons sr rest ih =>
    rw [List.foldl_cons, ih, vbStep_eval, lookupD_upsert]
    by_cases hv : sr.venue = v
    · rw [if_pos hv, lookupD_upsert]
      by_cases ha : sr.asset = a
      · rw [if_pos ha, List.filter_cons_of_pos (by simp [hv, ha]), List.map_cons,
          List.foldl_cons, hv, ha]
      · rw [if_neg ha, List.filter_cons_of_neg (by simp [ha]), hv]
    · rw [if_neg hv, List.filter_cons_of_neg (by simp [hv])]

/-- The value of `venue_balances` at any (venue, asset) key pair is the left
fold of the context-rounded additions over the stored amounts of the rows
with that venue and asset, in insertion order. -/
theorem venue_balances_lookup (s : Store) (v a : String) :
    lookupD (lookupD (Store.venue_balances s) v []) a 0 =
      ((s.filter (fun sr => decide (sr.venue = v) && decide (sr.asset = a))).map
        StoredRow.amount).foldl decAdd 0 := by
  unfold Store.venue_balances
  rw [lookupD_foldl_vbStep,
    filter_mergeSort_eq _ _ venueLe_trans venueLe_total s
      (fun x y hx hy => by
        simp only [Bool.and_eq_true, decide_eq_true_eq] at hx hy
        simp only [Bool.or_eq_true, Bool.and_eq_true, beq_iff_eq, decide_eq_true_eq]
        exact Or.inr ⟨hx.1.trans hy.1.symm, le_of_eq (hx.2.trans hy.2.symm)⟩)]
  rfl

/-- C6 (corrected): `asset_balances` accumulates per-asset totals with
`Decimal` context arithmetic: the value at any key is the left fold of the
28-significant-digit rounded additions (`decAdd`) over the amounts of the
rows with that asset in insertion order — not the exact rational sum in
general.  Each single addition is exact whenever its exact result fits in 28
significant digits (no floating point occurs anywhere), so inserting
0.00000001 and 0.00000002 for one asset still yields exactly 0.00000003. -/
theorem asset_balances_rounded_fold (s : Store) (a : String) :
    (lookupD (Store.asset_balances s) a 0 =
      ((s.filter (fun sr => decide (sr.asset = a))).map StoredRow.amount).foldl
        decAdd 0) ∧
    (∀ x y : ℚ, ∀ m j : ℤ, |m| < 10 ^ 28 → x + y = (m : ℚ) * 10 ^ j →
      decAdd x y = x + y) ∧
    lookupD (Store.asset_balances
        (Store.insert nowF (Store.insert nowF [] satRow1).2 satRow2).2) "BTC" 0 =
      3 / 100000000 := by
  refine ⟨asset_balances_lookup s a, fun x y m j hm h => decAdd_sci x y m j hm h, ?_⟩
  have h1 : (Store.insert nowF [] satRow1).2 = [storedOf nowF satRow1] := by
    rw [insert_of_absent nowF (by rfl)]
    simp
  have hfp : Store.fpPresent [storedOf nowF satRow1] satRow2.fingerprint = false := by
    simp only [Store.fpPresent, List.any_cons, List.any_nil, storedOf,
      fp_satRow1, fp_satRow2, Bool.or_false]
    decide
  have h2 : (Store.insert nowF (Store.insert nowF [] satRow1).2 satRow2).2 =
      [storedOf nowF satRow1, storedOf nowF satRow2] := by
    rw [h1, insert_of_absent nowF hfp]
    simp
  rw [h2, asset_balances_lookup,
    List.filter_cons_of_pos (by decide), List.filter_cons_of_pos (by decide),
    List.filter_nil, List.map_cons, List.map_cons, List.map_nil,
    List.foldl_cons, List.foldl_cons, List.foldl_nil]
  have e1 : decAdd 0 (storedOf nowF satRow1).amount = 1 / 100000000 := by
    rw [decAdd_sci _ _ 1 (-8) (by norm_num) (by norm_num [storedOf, satRow1])]
    norm_num [storedOf, satRow1]
  rw [e1, decAdd_sci _ _ 3 (-8) (by norm_num) (by norm_num [storedOf, satRow2])]
  norm_num [storedOf, satRow2]

/-- Inserting 1E+28 and then 1 for the same asset leaves a stored balance of
1E+28: the exact sum 10 ^ 28 + 1 needs 29 significant digits, so the second
addition rounds it back down — the balance is not the exact decimal sum. -/
theorem asset_balances_rounded_counterexample :
    (Store.insert nowF (Store.insert nowF [] bigRow).2 oneRowB).1 = true ∧
    lookupD (Store.asset_balances
        (Store.insert nowF (Store.insert nowF [] bigRow).2 oneRowB).2) "BTC" 0 =
      10 ^ 28 ∧
    (((Store.insert nowF (Store.insert nowF [] bigRow).2 oneRowB).2.filter
        (fun sr => decide (sr.asset = "BTC"))).map StoredRow.amount).sum =
      10 ^ 28 + 1 ∧
    ((10 : ℚ) ^ 28) ≠ 10 ^ 28 + 1 := by
  have h1 : (Store.insert nowF [] bigRow).2 = [storedOf nowF bigRow] := by
    rw [insert_of_absent nowF (by rfl)]
    simp
  have hfp : Store.fpPresent [storedOf nowF bigRow] oneRowB.fingerprint = false := by
    simp only [Store.fpPresent, List.any_cons, List.any_nil, storedOf,
      fp_bigRow, fp_oneRowB, Bool.or_false]
    decide
  have h2t : (Store.insert nowF (Store.insert nowF [] bigRow).2 oneRowB).1 = true := by
    rw [h1, insert_of_absent nowF hfp]
  have h2 : (Store.insert nowF (Store.insert nowF [] bigRow).2 oneRowB).2 =
      [storedOf nowF bigRow, storedOf nowF oneRowB] := by
    rw [h1, insert_of_absent nowF hfp]
    simp
  refine ⟨h2t, ?_, ?_, by norm_num⟩
  · rw [h2, asset_balances_lookup, List.filter_cons_of_pos (by decide),
      List.filter_cons_of_pos (by decide), List.filter_nil, List.map_cons,
      List.map_cons, List.map_nil, List.foldl_cons, List.foldl_cons, List.foldl_nil]
    have e1 : decAdd 0 (storedOf nowF bigRow).amount = 10 ^ 28 := by
      rw [decAdd_sci _ _ 1 28 (by norm_num) (by norm_num [storedOf, bigRow])]
      norm_num [storedOf, bigRow]
    rw [e1, show (storedOf nowF oneRowB).amount = 1 from rfl]
    unfold decAdd
    rw [show (10 : ℚ) ^ 28 + 1 = ((10 ^ 28 + 1 : ℤ) : ℚ) from by push_cast; ring,
      roundPrec_pow28_add 1 (by norm_num) (by norm_num)]
  · rw [h2, List.filter_cons_of_pos (by decide), List.filter_cons_of_pos (by decide),
      List.filter_nil]
    simp only [List.map_cons, List.map_nil, List.sum_cons, List.sum_nil]
    norm_num [storedOf, bigRow, oneRowB]

/-! ### Reversal neutrality (C4) -/

theorem import_count_le (now : DateTime) (s : Store) (rows : List RawRow) :
    (Store.import_rows now s rows).1.1 ≤ rows.length := by
  induction rows generalizing s with
  | nil => simp [Store.import_rows]
  | cons r rest ih =>
    simp only [Store.import_rows, List.length_cons]
    by_cases h : (Store.insert now s r).1
    · simp only [h, if_true]
      exact Nat.succ_le_succ (ih _)
    · simp only [h, if_false]
      exact Nat.le_succ_of_le (ih _)

theorem import_all_inserted (now : DateTime) (s : Store) (rows : List RawRow)
    (h : (Store.import_rows now s rows).1.1 = rows.length) :
    (Store.import_rows now s rows).2 = s ++ rows.map (storedOf now) := by
  induction rows generalizing s with
  | nil => simp [Store.import_rows]
  | cons r rest ih =>
    simp only [Store.import_rows, List.length_cons] at h ⊢
    by_cases hr : (Store.insert now s r).1
    · rw [if_pos hr] at h
      have habs : Store.fpPresent s r.fingerprint = false := by
        by_cases hp : Store.fpPresent s r.fingerprint
        · rw [insert_of_present now hp] at hr; simp at hr
        · simpa using hp
      rw [insert_of_absent now habs] at h ⊢
      dsimp only at h ⊢
      simp only [List.map_cons]
      rw [ih _ (by omega)]
      simp
    · rw [if_neg hr] at h
      have := import_count_le now (Store.insert now s r).2 rest
      omega

theorem import_singleton (now : DateTime) (s : Store) (r : RawRow)
    (h : Store.fpPresent s r.fingerprint = false) :
    Store.import_rows now s [r] = ((1, 0), s ++ [storedOf now r]) := by
  simp only [Store.import_rows]
  rw [insert_of_absent now h]
  simp [Store.import_rows]

/-- C4 (corrected): the reversal built by `create_reversal` has a fresh id,
type REVERSAL, the same asset/currency/venue, the price copied, the
truncated-to-seconds current timestamp, a fixed note prefix plus the original
id, and the context-rounded negated amount `decNeg orig.amount` — which
equals the exact negation `-orig.amount` whenever the amount fits in 28
significant digits.  Under that fit, inserting an original and then its
reversal into an empty store leaves every per-asset balance at zero.
(Neutrality over an arbitrary prior store does not hold in general: the
balance accumulation itself rounds.) -/
theorem reversal_neutral (new_id : String) (nowR n1 n2 : DateTime)
    (orig : RawRow) (m j : ℤ) (hm : |m| < 10 ^ 28)
    (hrep : -orig.amount = (m : ℚ) * 10 ^ j) :
    ((create_reversal new_id nowR orig "reversal of").id = new_id ∧
     (create_reversal new_id nowR orig "reversal of").type = "REVERSAL" ∧
     (create_reversal new_id nowR orig "reversal of").asset = orig.asset ∧
     (create_reversal new_id nowR orig "reversal of").currency = orig.currency ∧
     (create_reversal new_id nowR orig "reversal of").venue = orig.venue ∧
     (create_reversal new_id nowR orig "reversal of").amount = decNeg orig.amount ∧
     (create_reversal new_id nowR orig "reversal of").price = orig.price ∧
     (create_reversal new_id nowR orig "reversal of").timestamp = ⟨nowR.sec, 0⟩ ∧
     (create_reversal new_id nowR orig "reversal of").note =
       some ("reversal of" ++ " " ++ orig.id)) ∧
    (create_reversal new_id nowR orig "reversal of").amount = -orig.amount ∧
    ((Store.import_rows n1 [] [orig]).1.1 = 1 →
     (Store.import_rows n2 (Store.import_rows n1 [] [orig]).2
        [create_reversal new_id nowR orig "reversal of"]).1.1 = 1 →
     ∀ a : String,
       lookupD (Store.asset_balances
         (Store.import_rows n2 (Store.import_rows n1 [] [orig]).2
           [create_reversal new_id nowR orig "reversal of"]).2) a 0 = 0) := by
  have hneg : decNeg orig.amount = -orig.amount := decNeg_sci orig.amount m j hm hrep
  refine ⟨⟨rfl, rfl, rfl, rfl, rfl, rfl, rfl, rfl, rfl⟩, hneg, ?_⟩
  intro h1 h2 a
  have e1 := import_all_inserted n1 [] [orig] (by simpa using h1)
  have e2 := import_all_inserted n2 _ _ (by simpa using h2)
  rw [e2, e1]
  simp only [List.map_cons, List.map_nil, List.nil_append, List.append_nil]
  rw [asset_balances_lookup]
  by_cases hc : upperStr orig.asset = a
  · rw [show ([storedOf n1 orig] ++
        [storedOf n2 (create_reversal new_id nowR orig "reversal of")]) =
        [storedOf n1 orig,
         storedOf n2 (create_reversal new_id nowR orig "reversal of")] from rfl,
      List.filter_cons_of_pos (by simp [storedOf, hc]),
      List.filter_cons_of_pos (by simp [storedOf, create_reversal, hc]),
      List.filter_nil, List.map_cons, List.map_cons, List.map_nil,
      List.foldl_cons, List.foldl_cons, List.foldl_nil,
      show (storedOf n1 orig).amount = orig.amount from rfl,
      show (storedOf n2 (create_reversal new_id nowR orig
        "reversal of")).amount = decNeg orig.amount from rfl, hneg]
    have dA1 : decAdd 0 orig.amount = orig.amount := by
      rw [decAdd_sci 0 orig.amount (-m) j (by rwa [abs_neg])
        (by push_cast; linarith [hrep])]
      ring
    rw [dA1, decAdd_sci orig.amount (-orig.amount) 0 0 (by norm_num)
      (by push_cast; ring)]
    ring
  · rw [show ([storedOf n1 orig] ++
        [storedOf n2 (create_reversal new_id nowR orig "reversal of")]) =
        [storedOf n1 orig,
         storedOf n2 (create_reversal new_id nowR orig "reversal of")] from rfl,
      List.filter_cons_of_neg (by simp [storedOf, hc]),
      List.filter_cons_of_neg (by simp [storedOf, create_reversal, hc]),
      List.filter_nil]
    rfl

/-- Reversal neutrality fails once the context rounds: starting from a store
holding 1 EUR, inserting a 1E+28 EUR row and then its `create_reversal_pair`
reversal leaves the EUR balance at 0, not at the prior value 1 — the
intermediate addition 1 + 1E+28 already rounded the 1 away. -/
theorem reversal_neutral_counterexample :
    lookupD (Store.asset_balances [storedOf nowF eurOneRow]) "EUR" 0 = 1 ∧
    (Store.import_rows nowF [storedOf nowF eurOneRow] [eurBigRow]).1.1 = 1 ∧
    (Store.import_rows nowF (Store.import_rows nowF [storedOf nowF eurOneRow]
        [eurBigRow]).2
      (create_reversal_pair (fun _ => "rev-0") ⟨2000, 0⟩ [eurBigRow]
        "reversal of")).1.1 = 1 ∧
    lookupD (Store.asset_balances
      (Store.import_rows nowF (Store.import_rows nowF [storedOf nowF eurOneRow]
          [eurBigRow]).2
        (create_reversal_pair (fun _ => "rev-0") ⟨2000, 0⟩ [eurBigRow]
          "reversal of")).2) "EUR" 0 = 0 ∧
    (0 : ℚ) ≠ 1 := by
  have hpair : create_reversal_pair (fun _ => "rev-0") ⟨2000, 0⟩ [eurBigRow]
      "reversal of" =
      [create_reversal "rev-0" ⟨2000, 0⟩ eurBigRow "reversal of"] := rfl
  have hfpBig : Store.fpPresent [storedOf nowF eurOneRow] eurBigRow.fingerprint =
      false := by
    simp only [Store.fpPresent, List.any_cons, List.any_nil, storedOf,
      fp_eurOneRow, fp_eurBigRow, Bool.or_false]
    decide
  have hi1 : Store.import_rows nowF [storedOf nowF eurOneRow] [eurBigRow] =
      ((1, 0), [storedOf nowF eurOneRow, storedOf nowF eurBigRow]) := by
    simp only [Store.import_rows]
    rw [insert_of_absent nowF hfpBig]
    simp [Store.import_rows]
  have hfpRev : Store.fpPresent [storedOf nowF eurOneRow, storedOf nowF eurBigRow]
      (create_reversal "rev-0" ⟨2000, 0⟩ eurBigRow "reversal of").fingerprint =
      false := by
    simp only [Store.fpPresent, List.any_cons, List.any_nil, storedOf,
      fp_eurOneRow, fp_eurBigRow, fp_revBig, Bool.or_false]
    decide
  have hi2 : Store.import_rows nowF
      [storedOf nowF eurOneRow, storedOf nowF eurBigRow]
      [create_reversal "rev-0" ⟨2000, 0⟩ eurBigRow "reversal of"] =
      ((1, 0), [storedOf nowF eurOneRow, storedOf nowF eurBigRow,
        storedOf nowF (create_reversal "rev-0" ⟨2000, 0⟩ eurBigRow
          "reversal of")]) := by
    rw [import_singleton nowF _ _ hfpRev]
    rfl
  have hprior : lookupD (Store.asset_balances [storedOf nowF eurOneRow]) "EUR" 0 =
      1 := by
    rw [asset_balances_lookup, List.filter_cons_of_pos (by decide), List.filter_nil,
      List.map_cons, List.map_nil, List.foldl_cons, List.foldl_nil,
      decAdd_sci _ _ 1 0 (by norm_num) (by norm_num [storedOf, eurOneRow])]
    norm_num [storedOf, eurOneRow]
  refine ⟨hprior, by rw [hi1], by rw [hpair, hi1, hi2], ?_, by norm_num⟩
  rw [hpair, hi1, hi2, asset_balances_lookup,
    List.filter_cons_of_pos (by decide), List.filter_cons_of_pos (by decide),
    List.filter_cons_of_pos (by decide), List.filter_nil,
    List.map_cons, List.map_cons, List.map_cons, List.map_nil,
    List.foldl_cons, List.foldl_cons, List.foldl_cons, List.foldl_nil]
  have e1 : decAdd 0 (storedOf nowF eurOneRow).amount = 1 := by
    rw [decAdd_sci _ _ 1 0 (by norm_num) (by norm_num [storedOf, eurOneRow])]
    norm_num [storedOf, eurOneRow]
  rw [e1, show (storedOf nowF eurBigRow).amount = 10 ^ 28 from rfl]
  have e2 : decAdd 1 ((10 : ℚ) ^ 28) = 10 ^ 28 := by
    unfold decAdd
    rw [show (1 : ℚ) + 10 ^ 28 = ((10 ^ 28 + 1 : ℤ) : ℚ) from by push_cast; ring,
      roundPrec_pow28_add 1 (by norm_num) (by norm_num)]
  have e3 : (storedOf nowF (create_reversal "rev-0" ⟨2000, 0⟩ eurBigRow
      "reversal of")).amount = -(10 ^ 28) := revBig_amount
  rw [e2, e3, decAdd_sci _ _ 0 0 (by norm_num) (by norm_num)]
  norm_num

/-! ### Diagnostics (C8): dictionary key-uniqueness and membership lemmas -/

theorem mem_upsert {β : Type} {m : List (String × β)} {k : String} {v : β}
    {p : String × β} (h : p ∈ upsert m k v) : p ∈ m ∨ (p.1 = k ∧ p.2 = v) := by
  induction m with
  | nil =>
    simp only [upsert, List.mem_singleton] at h
    subst h; right; exact ⟨rfl, rfl⟩
  | cons q rest ih =>
    by_cases hq : q.1 = k
    · have e : upsert (q :: rest) k v = (q.1, v) :: rest := by simp [upsert, hq]
      rw [e] at h
      rcases List.mem_cons.mp h with rfl | hm
      · right; exact ⟨hq, rfl⟩
      · left; exact List.mem_cons_of_mem q hm
    · have e : upsert (q :: rest) k v = q :: upsert rest k v := by
        simp [upsert, hq]
      rw [e] at h
      rcases List.mem_cons.mp h with rfl | hm
      · left; exact List.mem_cons_self _ _
      · rcases ih hm with h1 | h2
        · left; exact List.mem_cons_of_mem q h1
        · right; exact h2

theorem keys_upsert {β : Type} (m : List (String × β)) (k : String) (v : β) :
    (upsert m k v).map Prod.fst =
      if k ∈ m.map Prod.fst then m.map Prod.fst else m.map Prod.fst ++ [k] := by
  induction m with
  | nil => simp [upsert]
  | cons p rest ih =>
    by_cases hp : p.1 = k
    · simp [upsert, hp]
    · have hkp : ¬ k = p.1 := fun h => hp h.symm
      simp only [upsert, hp, if_false, List.map_cons, ih, List.mem_cons]
      by_cases hk : k ∈ rest.map Prod.fst
      · simp [hkp, hk]
      · simp [hkp, hk]

theorem nodup_keys_upsert {β : Type} (m : List (String × β)) (k : String) (v : β)
    (hnd : (m.map Prod.fst).Nodup) : ((upsert m k v).map Prod.fst).Nodup := by
  rw [keys_upsert]
  by_cases hk : k ∈ m.map Prod.fst
  · simpa [hk]
  · simp [hk, hnd, List.nodup_append]

theorem mem_of_lookupD_ne {β : Type} (m : List (String × β)) (k : String) (d : β)
    (h : lookupD m k d ≠ d) : (k, lookupD m k d) ∈ m := by
  induction m with
  | nil => simp [lookupD] at h
  | cons q rest ih =>
    by_cases hq : q.1 = k
    · have e : lookupD (q :: rest) k d = q.2 := by simp [lookupD, hq]
      rw [e]
      have e2 : (k, q.2) = q := by rw [← hq]
      rw [e2]; exact List.mem_cons_self q rest
    · have e : lookupD (q :: rest) k d = lookupD rest k d := by simp [lookupD, hq]
      rw [e] at h ⊢
      exact List.mem_cons_of_mem q (ih h)

theorem lookupD_cases {β : Type} (m : List (String × β)) (k : String) (d : β) :
    lookupD m k d = d ∨ (k, lookupD m k d) ∈ m := by
  by_cases h : lookupD m k d = d
  · exact Or.inl h
  · exact Or.inr (mem_of_lookupD_ne m k d h)

theorem lookupD_eq_of_mem {β : Type} (m : List (String × β)) (p : String × β)
    (d : β) (hnd : (m.map Prod.fst).Nodup) (hm : p ∈ m) :
    lookupD m p.1 d = p.2 := by
  induction m with
  | nil => cases hm
  | cons q rest ih =>
    simp only [List.map_cons, List.nodup_cons] at hnd
    rcases List.mem_cons.mp hm with rfl | hm2
    · simp [lookupD]
    · have hq : ¬ q.1 = p.1 := by
        intro h
        exact hnd.1 (h ▸ List.mem_map_of_mem Prod.fst hm2)
      simp only [lookupD, hq, if_false]
      exact ih hnd.2 hm2

theorem vb_fold_keys_nodup (l : List StoredRow)
    (m : List (String × List (String × ℚ))) (hm : (m.map Prod.fst).Nodup) :
    ((l.foldl Store.vbStep m).map Prod.fst).Nodup := by
  induction l generalizing m with
  | nil => simpa
  | cons sr rest ih =>
    rw [List.foldl_cons]
    exact ih _ (nodup_keys_upsert _ _ _ hm)

theorem vb_fold_inner_nodup (l : List StoredRow)
    (m : List (String × List (String × ℚ)))
    (hm : ∀ p ∈ m, (p.2.map Prod.fst).Nodup) :
    ∀ p ∈ l.foldl Store.vbStep m, (p.2.map Prod.fst).Nodup := by
  induction l generalizing m with
  | nil => simp only [List.foldl_nil]; exact hm
  | cons sr rest ih =>
    rw [List.foldl_cons]
    apply ih
    intro p hp
    rcases mem_upsert hp with h1 | h2
    · exact hm p h1
    · rw [h2.2]
      apply nodup_keys_upsert
      rcases lookupD_cases m sr.venue [] with hd | hmem
      · rw [hd]; simp
      · exact hm _ hmem

theorem mem_diagnostics (s : Store) (w : Warning) :
    w ∈ Store.diagnostics s ↔
      ∃ p, p ∈ Store.venue_balances s ∧ ∃ q, q ∈ p.2 ∧ q.2 < 0 ∧
        w = mkWarning p.1 q.1 q.2 := by
  unfold Store.diagnostics
  rw [List.mem_flatMap]
  constructor
  · rintro ⟨p, hp, hw⟩
    rw [List.mem_map] at hw
    obtain ⟨q, hq, rfl⟩ := hw
    rw [List.mem_filter] at hq
    exact ⟨p, hp, q, hq.1, by simpa using hq.2, rfl⟩
  · rintro ⟨p, hp, q, hq, hneg, rfl⟩
    exact ⟨p, hp, List.mem_map_of_mem _
      (List.mem_filter.mpr ⟨hq, by simpa using hneg⟩)⟩

/-- The completeness direction of the diagnostics scan: a strictly negative
computed (venue, asset) balance always yields a warning for that pair. -/
theorem diag_mem_of_neg (s : Store) (v a : String)
    (hneg : lookupD (lookupD (Store.venue_balances s) v []) a 0 < 0) :
    ∃ w, w ∈ Store.diagnostics s ∧ w.venue = v ∧ w.asset = a := by
  have hne : lookupD (lookupD (Store.venue_balances s) v []) a 0 ≠ 0 :=
    ne_of_lt hneg
  have hqmem := mem_of_lookupD_ne (lookupD (Store.venue_balances s) v []) a 0 hne
  have hinner : lookupD (Store.venue_balances s) v [] ≠ [] := by
    intro h
    rw [h] at hqmem
    cases hqmem
  have hpmem := mem_of_lookupD_ne (Store.venue_balances s) v [] hinner
  refine ⟨mkWarning v a (lookupD (lookupD (Store.venue_balances s) v []) a 0),
    (mem_diagnostics s _).2
      ⟨(v, lookupD (Store.venue_balances s) v []), hpmem,
       (a, lookupD (lookupD (Store.venue_balances s) v []) a 0), hqmem,
       hneg, rfl⟩, rfl, rfl⟩

/-- C8 (corrected): `diagnostics()` contains a NEGATIVE_BALANCE warning for a
(venue, asset) pair exactly when that pair's *computed* balance — the
context-rounded `venue_balances` accumulation, which can differ from the
exact sum of the stored amounts — is strictly negative; each warning is
exactly the record carrying its venue, asset, the computed balance and the
message; the (venue, asset) pairs of the warnings are pairwise distinct (one
warning per pair); and inserting a FEE of -100 EUR at a venue with no prior
EUR balance produces the NEGATIVE_BALANCE warning for (venue, EUR). -/
theorem diagnostics_negative_balance (s : Store) (v a : String) :
    ((∃ w, w ∈ Store.diagnostics s ∧ w.venue = v ∧ w.asset = a) ↔
      lookupD (lookupD (Store.venue_balances s) v []) a 0 < 0) ∧
    (∀ w ∈ Store.diagnostics s,
      w = mkWarning w.venue w.asset
        (lookupD (lookupD (Store.venue_balances s) w.venue []) w.asset 0) ∧
      lookupD (lookupD (Store.venue_balances s) w.venue []) w.asset 0 < 0) ∧
    ((Store.diagnostics s).map (fun w => (w.venue, w.asset))).Nodup ∧
    ((Store.insert nowF [] feeRow).1 = true ∧
      mkWarning "kraken" "EUR" (-100) ∈
        Store.diagnostics (Store.insert nowF [] feeRow).2) := by
  have hko : ((Store.venue_balances s).map Prod.fst).Nodup :=
    vb_fold_keys_nodup _ [] (by simp)
  have hki : ∀ p ∈ Store.venue_balances s, (p.2.map Prod.fst).Nodup :=
    vb_fold_inner_nodup _ [] (by simp)
  refine ⟨⟨?_, ?_⟩, ?_, ?_, ?_, ?_⟩
  · rintro ⟨w, hw, hv, ha⟩
    obtain ⟨p, hp, q, hq, hneg, rfl⟩ := (mem_diagnostics s w).1 hw
    have ev : p.1 = v := hv
    have ea : q.1 = a := ha
    have e1 : lookupD (Store.venue_balances s) p.1 [] = p.2 :=
      lookupD_eq_of_mem _ _ _ hko hp
    have e2 : lookupD p.2 q.1 0 = q.2 := lookupD_eq_of_mem _ _ _ (hki p hp) hq
    rw [← ev, ← ea, e1, e2]
    exact hneg
  · exact diag_mem_of_neg s v a
  · intro w hw
    obtain ⟨p, hp, q, hq, hneg, rfl⟩ := (mem_diagnostics s w).1 hw
    have e1 : lookupD (Store.venue_balances s) p.1 [] = p.2 :=
      lookupD_eq_of_mem _ _ _ hko hp
    have e2 : lookupD p.2 q.1 0 = q.2 := lookupD_eq_of_mem _ _ _ (hki p hp) hq
    have e3 : lookupD (lookupD (Store.venue_balances s)
        (mkWarning p.1 q.1 q.2).venue []) (mkWarning p.1 q.1 q.2).asset 0 = q.2 := by
      show lookupD (lookupD (Store.venue_balances s) p.1 []) q.1 0 = q.2
      rw [e1, e2]
    rw [e3]
    exact ⟨rfl, hneg⟩
  · unfold Store.diagnostics
    rw [List.map_flatMap]
    apply List.nodup_flatMap.2
    constructor
    · intro p hp
      rw [List.map_map]
      have ec : ((fun w => (w.venue, w.asset)) ∘ (fun q : String × ℚ =>
          mkWarning p.1 q.1 q.2)) = fun q : String × ℚ => (p.1, q.1) := rfl
      rw [ec]
      have hsub : ((p.2.filter (fun q => decide (q.2 < 0))).map Prod.fst).Sublist
          (p.2.map Prod.fst) := (List.filter_sublist _).map Prod.fst
      have hn := (hki p hp).sublist hsub
      have ec2 : (fun q : String × ℚ => (p.1, q.1)) =
          (fun k => (p.1, k)) ∘ Prod.fst := rfl
      rw [ec2, ← List.map_map]
      exact hn.map (fun k1 k2 h => by simpa using h)
    · have hpw : (Store.venue_balances s).Pairwise (fun p1 p2 => p1.1 ≠ p2.1) :=
        List.pairwise_map.mp hko
      apply hpw.imp
      intro p1 p2 hne
      simp only [Function.onFun]
      intro x hx1 hx2
      obtain ⟨w1, hw1, rfl⟩ := List.mem_map.1 hx1
      obtain ⟨q1, hq1, rfl⟩ := List.mem_map.1 hw1
      obtain ⟨w2, hw2, heq⟩ := List.mem_map.1 hx2
      obtain ⟨q2, hq2, rfl⟩ := List.mem_map.1 hw2
      have h2 := congrArg Prod.fst heq
      exact hne h2.symm
  · rw [insert_of_absent nowF (by rfl)]
  · have hs2 : (Store.insert nowF [] feeRow).2 = [storedOf nowF feeRow] := by
      rw [insert_of_absent nowF (by rfl)]
      simp
    have hvb1 : Store.venue_balances [storedOf nowF feeRow] =
        [(lowerStr "kraken", [(upperStr "EUR", decAdd 0 (-100 : ℚ))])] := by
      unfold Store.venue_balances
      rw [List.mergeSort_of_sorted (by simp)]
      rfl
    have hvb2 : Store.venue_balances [storedOf nowF feeRow] =
        [("kraken", [("EUR", (-100 : ℚ))])] := by
      rw [hvb1, show lowerStr "kraken" = "kraken" from by decide,
        show upperStr "EUR" = "EUR" from by decide,
        show decAdd 0 (-100 : ℚ) = -100 from by
          rw [decAdd_sci 0 (-100) (-100) 0 (by norm_num) (by norm_num)]
          norm_num]
    have hdiag : Store.diagnostics [storedOf nowF feeRow] =
        [mkWarning "kraken" "EUR" (-100)] := by
      unfold Store.diagnostics
      rw [hvb2]
      simp only [List.flatMap_cons, List.flatMap_nil, List.append_nil]
      rw [List.filter_cons_of_pos (by decide), List.filter_nil]
      simp
    rw [hs2, hdiag]
    exact List.mem_cons_self _ _

/-- A NEGATIVE_BALANCE warning can fire although the exact sum of the stored
amounts is positive: with one (venue, asset) pair receiving 2, 1E+28, -1E+28
and -1 in that order, the rounded accumulation computes 2 → 1E+28 → 0 → -1
and warns, while the exact sum is +1. -/
theorem diagnostics_negative_balance_counterexample :
    Store.import_rows nowF [] [c8Row1, c8Row2, c8Row3, c8Row4] =
      ((4, 0), [storedOf nowF c8Row1, storedOf nowF c8Row2, storedOf nowF c8Row3,
        storedOf nowF c8Row4]) ∧
    lookupD (lookupD (Store.venue_balances [storedOf nowF c8Row1,
        storedOf nowF c8Row2, storedOf nowF c8Row3, storedOf nowF c8Row4])
      "kraken" []) "BTC" 0 = -1 ∧
    (∃ w, w ∈ Store.diagnostics [storedOf nowF c8Row1, storedOf nowF c8Row2,
        storedOf nowF c8Row3, storedOf nowF c8Row4] ∧
      w.venue = "kraken" ∧ w.asset = "BTC") ∧
    (([storedOf nowF c8Row1, storedOf nowF c8Row2, storedOf nowF c8Row3,
        storedOf nowF c8Row4].filter (fun sr => decide (sr.venue = "kraken") &&
          decide (sr.asset = "BTC"))).map StoredRow.amount).sum = 1 := by
  have i1 : Store.insert nowF [] c8Row1 = (true, [storedOf nowF c8Row1]) := by
    rw [insert_of_absent nowF (by rfl)]
    rfl
  have f2 : Store.fpPresent [storedOf nowF c8Row1] c8Row2.fingerprint = false := by
    simp only [Store.fpPresent, List.any_cons, List.any_nil, storedOf,
      fp_c8Row1, fp_c8Row2, Bool.or_false]
    decide
  have i2 : Store.insert nowF [storedOf nowF c8Row1] c8Row2 =
      (true, [storedOf nowF c8Row1, storedOf nowF c8Row2]) := by
    rw [insert_of_absent nowF f2]
    rfl
  have f3 : Store.fpPresent [storedOf nowF c8Row1, storedOf nowF c8Row2]
      c8Row3.fingerprint = false := by
    simp only [Store.fpPresent, List.any_cons, List.any_nil, storedOf,
      fp_c8Row1, fp_c8Row2, fp_c8Row3, Bool.or_false]
    decide
  have i3 : Store.insert nowF [storedOf nowF c8Row1, storedOf nowF c8Row2] c8Row3 =
      (true, [storedOf nowF c8Row1, storedOf nowF c8Row2, storedOf nowF c8Row3]) := by
    rw [insert_of_absent nowF f3]
    rfl
  have f4 : Store.fpPresent [storedOf nowF c8Row1, storedOf nowF c8Row2,
      storedOf nowF c8Row3] c8Row4.fingerprint = false := by
    simp only [Store.fpPresent, List.any_cons, List.any_nil, storedOf,
      fp_c8Row1, fp_c8Row2, fp_c8Row3, fp_c8Row4, Bool.or_false]
    decide
  have i4 : Store.insert nowF [storedOf nowF c8Row1, storedOf nowF c8Row2,
      storedOf nowF c8Row3] c8Row4 =
      (true, [storedOf nowF c8Row1, storedOf nowF c8Row2, storedOf nowF c8Row3,
        storedOf nowF c8Row4]) := by
    rw [insert_of_absent nowF f4]
    rfl
  have himp : Store.import_rows nowF [] [c8Row1, c8Row2, c8Row3, c8Row4] =
      ((4, 0), [storedOf nowF c8Row1, storedOf nowF c8Row2, storedOf nowF c8Row3,
        storedOf nowF c8Row4]) := by
    simp [Store.import_rows, i1, i2, i3, i4]
  have hbal : lookupD (lookupD (Store.venue_balances [storedOf nowF c8Row1,
      storedOf nowF c8Row2, storedOf nowF c8Row3, storedOf nowF c8Row4])
      "kraken" []) "BTC" 0 = -1 := by
    rw [venue_balances_lookup,
      List.filter_cons_of_pos (by decide), List.filter_cons_of_pos (by decide),
      List.filter_cons_of_pos (by decide), List.filter_cons_of_pos (by decide),
      List.filter_nil, List.map_cons, List.map_cons, List.map_cons, List.map_cons,
      List.map_nil, List.foldl_cons, List.foldl_cons, List.foldl_cons,
      List.foldl_cons, List.foldl_nil]
    have s1 : decAdd 0 (storedOf nowF c8Row1).amount = 2 := by
      rw [decAdd_sci _ _ 2 0 (by norm_num) (by norm_num [storedOf, c8Row1])]
      norm_num [storedOf, c8Row1]
    rw [s1, show (storedOf nowF c8Row2).amount = 10 ^ 28 from rfl]
    have s2 : decAdd 2 ((10 : ℚ) ^ 28) = 10 ^ 28 := by
      unfold decAdd
      rw [show (2 : ℚ) + 10 ^ 28 = ((10 ^ 28 + 2 : ℤ) : ℚ) from by push_cast; ring,
        roundPrec_pow28_add 2 (by norm_num) (by norm_num)]
    rw [s2, show (storedOf nowF c8Row3).amount = -(10 ^ 28) from rfl]
    have s3 : decAdd ((10 : ℚ) ^ 28) (-(10 ^ 28)) = 0 := by
      rw [decAdd_sci _ _ 0 0 (by norm_num) (by norm_num)]
      norm_num
    rw [s3]
    rw [decAdd_sci _ _ (-1) 0 (by norm_num) (by norm_num [storedOf, c8Row4])]
    norm_num [storedOf, c8Row4]
  refine ⟨himp, hbal, diag_mem_of_neg _ _ _ (by rw [hbal]; norm_num), ?_⟩
  rw [List.filter_cons_of_pos (by decide), List.filter_cons_of_pos (by decide),
    List.filter_cons_of_pos (by decide), List.filter_cons_of_pos (by decide),
    List.filter_nil]
  simp only [List.map_cons, List.map_nil, List.sum_cons, List.sum_nil]
  norm_num [storedOf, c8Row1, c8Row2, c8Row3, c8Row4]

/-! ### Venue refinement (C10): partitioning the store by venue keys -/

theorem sum_ite_key (ks : List String) (k : String) (c : ℚ) (hnd : ks.Nodup)
    (hk : k ∈ ks) : (ks.map (fun v => if k = v then c else 0)).sum = c := by
  induction ks with
  | nil => cases hk
  | cons v rest ih =>
    rw [List.map_cons, List.sum_cons]
    rcases List.mem_cons.mp hk with rfl | hmem
    · rw [if_pos rfl]
      have hnotin : k ∉ rest := (List.nodup_cons.mp hnd).1
      have hzero : (rest.map (fun w => if k = w then c else 0)).sum = 0 := by
        apply List.sum_eq_zero
        intro x hx
        obtain ⟨w, hw, rfl⟩ := List.mem_map.mp hx
        rw [if_neg (fun he => hnotin (by rw [he]; exact hw))]
      rw [hzero, add_zero]
    · have hne : ¬ k = v := by
        rintro rfl
        exact (List.nodup_cons.mp hnd).1 hmem
      rw [if_neg hne, ih (List.nodup_cons.mp hnd).2 hmem, zero_add]

theorem sum_map_add_q {α : Type} (l : List α) (f g : α → ℚ) :
    (l.map (fun x => f x + g x)).sum = (l.map f).sum + (l.map g).sum := by
  induction l with
  | nil => simp
  | cons x rest ih =>
    simp only [List.map_cons, List.sum_cons, ih]
    ring

/-- Partitioning the rows of one asset by a duplicate-free key list covering
every venue that occurs: the per-venue exact sums add up to the per-asset
exact sum. -/
theorem sum_partition (a : String) (ks : List String) (hnd : ks.Nodup)
    (l : List StoredRow) (hcov : ∀ sr ∈ l, sr.asset = a → sr.venue ∈ ks) :
    (ks.map (fun v => ((l.filter (fun r =>
        decide (r.venue = v) && decide (r.asset = a))).map
          StoredRow.amount).sum)).sum =
      ((l.filter (fun r => decide (r.asset = a))).map StoredRow.amount).sum := by
  induction l with
  | nil => simp
  | cons sr rest ih =>
    have hcovr : ∀ x ∈ rest, x.asset = a → x.venue ∈ ks :=
      fun x hx => hcov x (List.mem_cons_of_mem _ hx)
    have hstep : ∀ v : String,
        ((List.filter (fun r => decide (r.venue = v) && decide (r.asset = a))
            (sr :: rest)).map StoredRow.amount).sum =
          (if sr.venue = v ∧ sr.asset = a then sr.amount else 0) +
            ((List.filter (fun r => decide (r.venue = v) && decide (r.asset = a))
              rest).map StoredRow.amount).sum := by
      intro v
      by_cases hc : sr.venue = v ∧ sr.asset = a
      · rw [List.filter_cons_of_pos (by simp [hc.1, hc.2]), List.map_cons,
          List.sum_cons, if_pos hc]
      · rw [List.filter_cons_of_neg
          (by simp only [Bool.and_eq_true, decide_eq_true_eq]; exact hc),
          if_neg hc, zero_add]
    have e1 : (ks.map (fun v => ((List.filter (fun r =>
        decide (r.venue = v) && decide (r.asset = a)) (sr :: rest)).map
          StoredRow.amount).sum)).sum =
        (ks.map (fun v => if sr.venue = v ∧ sr.asset = a then sr.amount else 0)).sum +
        (ks.map (fun v => ((List.filter (fun r =>
          decide (r.venue = v) && decide (r.asset = a)) rest).map
            StoredRow.amount).sum)).sum := by
      rw [← sum_map_add_q]
      apply congrArg List.sum
      apply List.map_congr_left
      intro v hv
      exact hstep v
    rw [e1, ih hcovr]
    by_cases hc : sr.asset = a
    · rw [List.filter_cons_of_pos (by simpa using hc), List.map_cons, List.sum_cons]
      have hsel : (ks.map (fun v =>
          if sr.venue = v ∧ sr.asset = a then sr.amount else 0)).sum = sr.amount := by
        have hfe : (fun v => if sr.venue = v ∧ sr.asset = a then sr.amount else 0) =
            (fun v => if sr.venue = v then sr.amount else 0) := by
          funext v
          by_cases hvv : sr.venue = v
          · simp [hvv, hc]
          · simp [hvv]
        rw [hfe]
        exact sum_ite_key ks sr.venue sr.amount hnd
          (hcov sr (List.mem_cons_self _ _) hc)
      rw [hsel]
    · rw [List.filter_cons_of_neg (by simpa using hc)]
      have hsel : (ks.map (fun v =>
          if sr.venue = v ∧ sr.asset = a then sr.amount else 0)).sum = 0 := by
        apply List.sum_eq_zero
        intro x hx
        obtain ⟨w, hw, rfl⟩ := List.mem_map.mp hx
        rw [if_neg (fun h => hc h.2)]
      rw [hsel, zero_add]

theorem mem_keys_upsert_self {β : Type} (m : List (String × β)) (k : String)
    (v : β) : k ∈ (upsert m k v).map Prod.fst := by
  rw [keys_upsert]
  by_cases hk : k ∈ m.map Prod.fst
  · rwa [if_pos hk]
  · rw [if_neg hk]
    exact List.mem_append.mpr (Or.inr (List.mem_singleton.mpr rfl))

theorem mem_keys_upsert_of_mem {β : Type} {m : List (String × β)} {q : String}
    (k : String) (v : β) (h : q ∈ m.map Prod.fst) :
    q ∈ (upsert m k v).map Prod.fst := by
  rw [keys_upsert]
  by_cases hk : k ∈ m.map Prod.fst
  · rwa [if_pos hk]
  · rw [if_neg hk]
    exact List.mem_append.mpr (Or.inl h)

theorem keys_foldl_vb_mono (l : List StoredRow)
    (m : List (String × List (String × ℚ))) (k : String)
    (h : k ∈ m.map Prod.fst) : k ∈ (l.foldl Store.vbStep m).map Prod.fst := by
  induction l generalizing m with
  | nil => exact h
  | cons sr rest ih =>
    rw [List.foldl_cons]
    exact ih _ (mem_keys_upsert_of_mem _ _ h)

theorem venue_mem_keys (l : List StoredRow)
    (m : List (String × List (String × ℚ))) (sr : StoredRow) (h : sr ∈ l) :
    sr.venue ∈ (l.foldl Store.vbStep m).map Prod.fst := by
  induction l generalizing m with
  | nil => cases h
  | cons x rest ih =>
    rw [List.foldl_cons]
    rcases List.mem_cons.mp h with rfl | hmem
    · exact keys_foldl_vb_mono rest _ _ (mem_keys_upsert_self _ _ _)
    · exact ih _ hmem

/-- C10 (corrected): whenever the context-rounded accumulations happen to
agree with the exact sums — hypotheses `hA` for the asset total and `hV` for
every venue total, automatic e.g. while all partial sums fit in 28
significant digits — the sum over all venues of the per-venue balance of an
asset (0 where absent) equals the per-asset balance.  Without that exactness
the refinement can fail, because the two scans round at different
intermediate values (see the counterexample). -/
theorem venue_refines_asset (s : Store) (a : String)
    (hA : lookupD (Store.asset_balances s) a 0 =
      ((s.filter (fun sr => decide (sr.asset = a))).map StoredRow.amount).sum)
    (hV : ∀ v, lookupD (lookupD (Store.venue_balances s) v []) a 0 =
      ((s.filter (fun sr => decide (sr.venue = v) && decide (sr.asset = a))).map
        StoredRow.amount).sum) :
    ((Store.venue_balances s).map (fun p => lookupD p.2 a 0)).sum =
      lookupD (Store.asset_balances s) a 0 := by
  have hko : ((Store.venue_balances s).map Prod.fst).Nodup :=
    vb_fold_keys_nodup _ [] (by simp)
  have hterm : ∀ p ∈ Store.venue_balances s,
      lookupD p.2 a 0 = ((s.filter (fun sr =>
        decide (sr.venue = p.1) && decide (sr.asset = a))).map
          StoredRow.amount).sum := by
    intro p hp
    have e1 : lookupD (Store.venue_balances s) p.1 [] = p.2 :=
      lookupD_eq_of_mem _ _ _ hko hp
    rw [← e1]
    exact hV p.1
  have hmap : (Store.venue_balances s).map (fun p => lookupD p.2 a 0) =
      ((Store.venue_balances s).map Prod.fst).map (fun v => ((s.filter (fun sr =>
        decide (sr.venue = v) && decide (sr.asset = a))).map
          StoredRow.amount).sum) := by
    rw [List.map_map]
    exact List.map_congr_left hterm
  rw [hmap, hA]
  exact sum_partition a ((Store.venue_balances s).map Prod.fst) hko s
    (fun sr hsr hsa => by
      unfold Store.venue_balances
      exact venue_mem_keys _ [] sr (((List.mergeSort_perm s _).mem_iff).mpr hsr))

/-- The venue refinement fails under rounding: 1 EUR at venue `a` and 1E+28
EUR at venue `b` give per-venue balances 1 and 1E+28 (each exact), summing to
10 ^ 28 + 1 over venues, while the single-asset accumulation rounds to
1E+28. -/
theorem venue_refines_asset_counterexample :
    (Store.insert nowF (Store.insert nowF [] eurARow).2 eurBRow).2 =
      [storedOf nowF eurARow, storedOf nowF eurBRow] ∧
    ((Store.venue_balances [storedOf nowF eurARow, storedOf nowF eurBRow]).map
      (fun p => lookupD p.2 "EUR" 0)).sum = 10 ^ 28 + 1 ∧
    lookupD (Store.asset_balances [storedOf nowF eurARow, storedOf nowF eurBRow])
      "EUR" 0 = 10 ^ 28 ∧
    ((10 : ℚ) ^ 28 + 1) ≠ 10 ^ 28 := by
  have h1 : (Store.insert nowF [] eurARow).2 = [storedOf nowF eurARow] := by
    rw [insert_of_absent nowF (by rfl)]
    simp
  have hfp : Store.fpPresent [storedOf nowF eurARow] eurBRow.fingerprint = false := by
    simp only [Store.fpPresent, List.any_cons, List.any_nil, storedOf,
      fp_eurARow, fp_eurBRow, Bool.or_false]
    decide
  have h2 : (Store.insert nowF (Store.insert nowF [] eurARow).2 eurBRow).2 =
      [storedOf nowF eurARow, storedOf nowF eurBRow] := by
    rw [h1, insert_of_absent nowF hfp]
    simp
  have hv1 : (storedOf nowF eurARow).venue = "a" := by decide
  have ha1 : (storedOf nowF eurARow).asset = "EUR" := by decide
  have ham1 : (storedOf nowF eurARow).amount = 1 := rfl
  have hv2 : (storedOf nowF eurBRow).venue = "b" := by decide
  have ha2 : (storedOf nowF eurBRow).asset = "EUR" := by decide
  have ham2 : (storedOf nowF eurBRow).amount = 10 ^ 28 := rfl
  have hle : ((storedOf nowF eurARow).venue < (storedOf nowF eurBRow).venue ||
      ((storedOf nowF eurARow).venue == (storedOf nowF eurBRow).venue &&
       (storedOf nowF eurARow).asset ≤ (storedOf nowF eurBRow).asset)) = true := by
    rw [hv1, hv2, ha1, ha2]
    simp only [Bool.or_eq_true, decide_eq_true_eq]
    exact Or.inl (by rw [String.lt_iff_toList_lt]; decide)
  have hpw : List.Pairwise (fun r1 r2 : StoredRow => (r1.venue < r2.venue ||
      (r1.venue == r2.venue && r1.asset ≤ r2.asset)) = true)
      [storedOf nowF eurARow, storedOf nowF eurBRow] := by
    refine List.Pairwise.cons ?_ (List.pairwise_singleton _ _)
    intro b hb
    rw [List.mem_singleton] at hb
    subst hb
    exact hle
  have e1 : Store.vbStep [] (storedOf nowF eurARow) =
      [("a", [("EUR", decAdd 0 1)])] := by
    rw [vbStep_eval, hv1, ha1, ham1]
    rfl
  have e2 : Store.vbStep [("a", [("EUR", decAdd 0 1)])] (storedOf nowF eurBRow) =
      [("a", [("EUR", decAdd 0 1)]), ("b", [("EUR", decAdd 0 (10 ^ 28))])] := by
    rw [vbStep_eval, hv2, ha2, ham2]
    rfl
  have hvb : Store.venue_balances [storedOf nowF eurARow, storedOf nowF eurBRow] =
      [("a", [("EUR", decAdd 0 1)]), ("b", [("EUR", decAdd 0 (10 ^ 28))])] := by
    unfold Store.venue_balances
    rw [List.mergeSort_of_sorted hpw, List.foldl_cons, List.foldl_cons,
      List.foldl_nil, e1, e2]
  refine ⟨h2, ?_, ?_, by norm_num⟩
  · rw [hvb, List.map_cons, List.map_cons, List.map_nil, List.sum_cons,
      List.sum_cons, List.sum_nil]
    show lookupD [("EUR", decAdd 0 1)] "EUR" 0 +
      (lookupD [("EUR", decAdd 0 ((10 : ℚ) ^ 28))] "EUR" 0 + 0) = 10 ^ 28 + 1
    rw [lookupD_cons_self, lookupD_cons_self,
      decAdd_sci 0 1 1 0 (by norm_num) (by norm_num),
      decAdd_sci 0 ((10 : ℚ) ^ 28) 1 28 (by norm_num) (by norm_num)]
    norm_num
  · rw [asset_balances_lookup, List.filter_cons_of_pos (by decide),
      List.filter_cons_of_pos (by decide), List.filter_nil, List.map_cons,
      List.map_cons, List.map_nil, List.foldl_cons, List.foldl_cons,
      List.foldl_nil, ham1, ham2,
      decAdd_sci 0 1 1 0 (by norm_num) (by norm_num)]
    have e3 : decAdd (0 + 1) ((10 : ℚ) ^ 28) = 10 ^ 28 := by
      unfold decAdd
      rw [show (0 : ℚ) + 1 + 10 ^ 28 = ((10 ^ 28 + 1 : ℤ) : ℚ) from by
          push_cast; ring,
        roundPrec_pow28_add 1 (by norm_num) (by norm_num)]
    rw [e3]

/-! ### Normalization invariant (C9) -/

theorem insert_rows_prop (now : DateTime) (r : RawRow) (s : Store)
    (P : StoredRow → Prop) (hs : ∀ sr ∈ s, P sr) (hr : P (storedOf now r)) :
    ∀ sr ∈ (Store.insert now s r).2, P sr := by
  by_cases hp : Store.fpPresent s r.fingerprint
  · rw [insert_of_present now hp]; exact hs
  · rw [insert_of_absent now (by simpa using hp)]
    intro sr hmem
    rcases List.mem_append.mp hmem with h1 | h2
    · exact hs sr h1
    · rw [List.mem_singleton.mp h2]; exact hr

theorem reachable_rows_normalized {s : Store} (h : Reachable s) :
    ∀ sr ∈ s, (∃ a0, sr.asset = upperStr a0) ∧
      (∃ c0, sr.currency = upperStr c0) ∧ (∃ v0, sr.venue = lowerStr v0) := by
  induction h with
  | empty => intro sr hmem; cases hmem
  | step_insert now r hrs ih =>
    exact insert_rows_prop now r _ _ ih
      ⟨⟨r.asset, rfl⟩, ⟨r.currency, rfl⟩, ⟨r.venue, rfl⟩⟩
  | step_pair now a b hrs ih =>
    exact insert_rows_prop now b _ _
      (insert_rows_prop now a _ _ ih ⟨⟨a.asset, rfl⟩, ⟨a.currency, rfl⟩, ⟨a.venue, rfl⟩⟩)
      ⟨⟨b.asset, rfl⟩, ⟨b.currency, rfl⟩, ⟨b.venue, rfl⟩⟩

theorem keys_foldl_abStep (l : List StoredRow) (m : List (String × ℚ))
    (k : String) (hk : k ∈ (l.foldl Store.abStep m).map Prod.fst) :
    k ∈ m.map Prod.fst ∨ ∃ sr ∈ l, sr.asset = k := by
  induction l generalizing m with
  | nil => rw [List.foldl_nil] at hk; exact Or.inl hk
  | cons sr rest ih =>
    rw [List.foldl_cons] at hk
    rcases ih _ hk with h1 | h2
    · by_cases hc : sr.asset ∈ m.map Prod.fst
      · rw [abStep_eval, keys_upsert, if_pos hc] at h1
        exact Or.inl h1
      · rw [abStep_eval, keys_upsert, if_neg hc] at h1
        rcases List.mem_append.mp h1 with h3 | h4
        · exact Or.inl h3
        · exact Or.inr ⟨sr, List.mem_cons_self _ _, (List.mem_singleton.mp h4).symm⟩
    · obtain ⟨sr2, hmem, he⟩ := h2
      exact Or.inr ⟨sr2, List.mem_cons_of_mem _ hmem, he⟩

theorem keys_foldl_vbStep (l : List StoredRow)
    (m : List (String × List (String × ℚ))) (k : String)
    (hk : k ∈ (l.foldl Store.vbStep m).map Prod.fst) :
    k ∈ m.map Prod.fst ∨ ∃ sr ∈ l, sr.venue = k := by
  induction l generalizing m with
  | nil => rw [List.foldl_nil] at hk; exact Or.inl hk
  | cons sr rest ih =>
    rw [List.foldl_cons] at hk
    rcases ih _ hk with h1 | h2
    · by_cases hc : sr.venue ∈ m.map Prod.fst
      · rw [vbStep_eval, keys_upsert, if_pos hc] at h1
        exact Or.inl h1
      · rw [vbStep_eval, keys_upsert, if_neg hc] at h1
        rcases List.mem_append.mp h1 with h3 | h4
        · exact Or.inl h3
        · exact Or.inr ⟨sr, List.mem_cons_self _ _, (List.mem_singleton.mp h4).symm⟩
    · obtain ⟨sr2, hmem, he⟩ := h2
      exact Or.inr ⟨sr2, List.mem_cons_of_mem _ hmem, he⟩

theorem vb_fold_inner_from (Q : String → Prop) (l : List StoredRow)
    (m : List (String × List (String × ℚ)))
    (hm : ∀ p ∈ m, ∀ q ∈ p.2, Q q.1) (hl : ∀ sr ∈ l, Q sr.asset) :
    ∀ p ∈ l.foldl Store.vbStep m, ∀ q ∈ p.2, Q q.1 := by
  induction l generalizing m with
  | nil => rw [List.foldl_nil]; exact hm
  | cons sr rest ih =>
    rw [List.foldl_cons]
    apply ih
    · intro p hp q hq
      rcases mem_upsert hp with h1 | h2
      · exact hm p h1 q hq
      · rw [h2.2] at hq
        rcases mem_upsert hq with h3 | h4
        · rcases lookupD_cases m sr.venue [] with hd | hmem
          · rw [hd] at h3; cases h3
          · exact hm _ hmem q h3
        · rw [h4.1]; exact hl sr (List.mem_cons_self _ _)
    · intro sr2 hmem
      exact hl sr2 (List.mem_cons_of_mem _ hmem)

/-- C9: every row persisted through `insert` or `insert_pair` is stored with
its asset and currency uppercased and its venue lowercased regardless of
input casing; hence on any reachable store the keys of `asset_balances` and
`venue_balances` are normalized (uppercase-asset / lowercase-venue) forms,
and two input rows differing only in asset or venue casing are stored under
the same balance-bucket keys. -/
theorem normalization_invariant (s : Store) (hs : Reachable s) :
    (∀ sr ∈ s, (∃ a0, sr.asset = upperStr a0) ∧
      (∃ c0, sr.currency = upperStr c0) ∧ (∃ v0, sr.venue = lowerStr v0)) ∧
    (∀ k ∈ (Store.asset_balances s).map Prod.fst, ∃ a0, k = upperStr a0) ∧
    (∀ p ∈ Store.venue_balances s, (∃ v0, p.1 = lowerStr v0) ∧
      (∀ q ∈ p.2, ∃ a0, q.1 = upperStr a0)) ∧
    (∀ (n1 n2 : DateTime) (r1 r2 : RawRow),
      upperStr r1.asset = upperStr r2.asset →
      (storedOf n1 r1).asset = (storedOf n2 r2).asset) ∧
    (∀ (n1 n2 : DateTime) (r1 r2 : RawRow),
      lowerStr r1.venue = lowerStr r2.venue →
      (storedOf n1 r1).venue = (storedOf n2 r2).venue) := by
  have hrows := reachable_rows_normalized hs
  refine ⟨hrows, ?_, ?_, ?_, ?_⟩
  · intro k hk
    unfold Store.asset_balances at hk
    rcases keys_foldl_abStep _ _ _ hk with h1 | h2
    · cases h1
    · obtain ⟨sr, hmem, he⟩ := h2
      have := (hrows sr (((List.mergeSort_perm s _).mem_iff).mp hmem)).1
      rw [← he]
      exact this
  · intro p hp
    constructor
    · have hk : p.1 ∈ (Store.venue_balances s).map Prod.fst :=
        List.mem_map_of_mem Prod.fst hp
      unfold Store.venue_balances at hk
      rcases keys_foldl_vbStep _ _ _ hk with h1 | h2
      · cases h1
      · obtain ⟨sr, hmem, he⟩ := h2
        have := (hrows sr (((List.mergeSort_perm s _).mem_iff).mp hmem)).2.2
        rw [← he]
        exact this
    · intro q hq
      refine vb_fold_inner_from (fun k => ∃ a0, k = upperStr a0) _ []
        (by intro p hp; cases hp) ?_ p hp q hq
      intro sr hmem
      exact (hrows sr (((List.mergeSort_perm s _).mem_iff).mp hmem)).1
  · intro n1 n2 r1 r2 h
    exact h
  · intro n1 n2 r1 r2 h
    exact h

/-! ### Service add_reversal (C5) -/

theorem insertEach_aux (now : DateTime) (revs : List RawRow) (c : Nat) (s : Store) :
    revs.foldl (fun acc rev =>
      let res := Store.insert now acc.2 rev
      (if res.1 then acc.1 + 1 else acc.1, res.2)) (c, s) =
      (c + (Store.import_rows now s revs).1.1, (Store.import_rows now s revs).2) := by
  induction revs generalizing c s with
  | nil => simp [Store.import_rows]
  | cons r rest ih =>
    rw [List.foldl_cons]
    simp only [Store.import_rows]
    by_cases hr : (Store.insert now s r).1
    · simp only [hr, eq_self_iff_true, if_true]
      rw [ih]
      simp only [Prod.mk.injEq]
      exact ⟨by omega, by trivial⟩
    · simp only [hr, Bool.false_eq_true, if_false]
      rw [ih]

theorem insertEach_eq (now : DateTime) (s : Store) (revs : List RawRow) :
    insertEach now s revs =
      ((Store.import_rows now s revs).1.1, (Store.import_rows now s revs).2) := by
  unfold insertEach
  rw [insertEach_aux]
  simp

theorem validate_row_fst (r : RawRow) :
    (validate_row r).1 = true ↔ (validate_row r).2 = [] := by
  unfold validate_row
  dsimp only
  simp [List.length_eq_zero]

theorem reversalErrors_aux (revs : List RawRow) (acc : List String) :
    revs.foldl (fun acc rev =>
      if (validate_row rev).1 then acc else acc ++ (validate_row rev).2) acc =
      acc ++ revs.flatMap (fun rev =>
        if (validate_row rev).1 then [] else (validate_row rev).2) := by
  induction revs generalizing acc with
  | nil => simp
  | cons r rest ih =>
    rw [List.foldl_cons, List.flatMap_cons]
    by_cases h : (validate_row r).1
    · simp only [h, if_true]
      rw [ih]
      simp
    · simp only [h, if_false]
      rw [ih]
      simp [List.append_assoc]

theorem reversalErrors_nil_iff (revs : List RawRow) :
    reversalErrors revs = [] ↔ ∀ rev ∈ revs, (validate_row rev).1 = true := by
  unfold reversalErrors
  rw [reversalErrors_aux, List.nil_append, List.flatMap_eq_nil_iff]
  constructor
  · intro h rev hmem
    by_cases hv : (validate_row rev).1
    · exact hv
    · have := h rev hmem
      rw [if_neg hv] at this
      exact absurd ((validate_row_fst rev).mpr this) hv
  · intro h rev hmem
    rw [if_pos (h rev hmem)]

theorem add_reversal_some_eq (now : DateTime) (mkId : Nat → String) (s : Store)
    (pk : Nat) (rp : Bool) (original : RawRow)
    (h : Store.get_row_by_pk s pk = some original) :
    add_reversal now mkId s pk rp =
      (if reversalErrors (reversalsFor mkId now s original rp) ≠ [] then
        ({ success := false, rows_inserted := 0, diagnostics := [],
           errors := reversalErrors (reversalsFor mkId now s original rp) }, s)
      else
        (if (insertEach now s (reversalsFor mkId now s original rp)).1 = 0 then
          ({ success := false, rows_inserted := 0, diagnostics := [],
             errors := ["Všechny reversaly jsou duplikátní."] },
            (insertEach now s (reversalsFor mkId now s original rp)).2)
        else
          ({ success := true,
             rows_inserted := (insertEach now s (reversalsFor mkId now s original rp)).1,
             diagnostics := Store.diagnostics
               (insertEach now s (reversalsFor mkId now s original rp)).2,
             errors := [] },
            (insertEach now s (reversalsFor mkId now s original rp)).2))) := by
  unfold add_reversal
  rw [h]

/-- C5: `add_reversal(pk)` fails with NotFound and no storage effect when no
stored row has that key; otherwise it validates every generated reversal row
before inserting any — if any leg fails validation the whole operation is
rejected with the store unchanged; if validation passes, the legs are
inserted one by one with per-leg duplicate rejection (the store and inserted
count are exactly those of `import_rows` on the generated legs). -/
theorem add_reversal_spec (now : DateTime) (mkId : Nat → String) (s : Store)
    (pk : Nat) (rp : Bool) :
    (Store.get_row_by_pk s pk = none →
      add_reversal now mkId s pk rp =
        ({ success := false, rows_inserted := 0, diagnostics := [],
           errors := ["Řádek pk=" ++ toString pk ++ " nenalezen."] }, s)) ∧
    (∀ original, Store.get_row_by_pk s pk = some original →
      (reversalErrors (reversalsFor mkId now s original rp) = [] ↔
        ∀ rev ∈ reversalsFor mkId now s original rp, (validate_row rev).1 = true) ∧
      (reversalErrors (reversalsFor mkId now s original rp) ≠ [] →
        add_reversal now mkId s pk rp =
          ({ success := false, rows_inserted := 0, diagnostics := [],
             errors := reversalErrors (reversalsFor mkId now s original rp) }, s)) ∧
      (reversalErrors (reversalsFor mkId now s original rp) = [] →
        (add_reversal now mkId s pk rp).2 =
          (Store.import_rows now s (reversalsFor mkId now s original rp)).2 ∧
        (add_reversal now mkId s pk rp).1.rows_inserted =
          (Store.import_rows now s (reversalsFor mkId now s original rp)).1.1)) := by
  refine ⟨?_, ?_⟩
  · intro h
    unfold add_reversal
    rw [h]
  · intro original h
    refine ⟨reversalErrors_nil_iff _, ?_, ?_⟩
    · intro herr
      rw [add_reversal_some_eq now mkId s pk rp original h, if_pos herr]
    · intro herr
      rw [add_reversal_some_eq now mkId s pk rp original h,
        if_neg (by simp [herr]), insertEach_eq]
      dsimp only
      by_cases hc :
          (Store.import_rows now s (reversalsFor mkId now s original rp)).1.1 = 0
      · rw [if_pos hc]
        exact ⟨rfl, hc.symm⟩
      · rw [if_neg hc]
        exact ⟨rfl, rfl⟩

/-! ### Witnesses: the claim theorems applied at concrete inputs -/

theorem insert_duplicate_and_import_idempotent_witness :
    (Store.insert nowF [] satRow1).2 = [] ++ [storedOf nowF satRow1] ∧
    (Store.import_rows nowF (Store.import_rows nowF [] [satRow1]).2 [satRow1]).1 =
      (0, 1) := by
  have h := insert_duplicate_and_import_idempotent nowF [] satRow1
  refine ⟨h.2.2.1 ?_, h.2.2.2 [satRow1] nowF nowF⟩
  rw [insert_of_absent nowF (by rfl)]

theorem fingerprint_deterministic_witness :
    buyRowA.id ≠ buyRowB.id ∧ buyRowA.note ≠ buyRowB.note ∧
    buyRowA.fingerprint = buyRowB.fingerprint :=
  ⟨by decide, by decide,
   fingerprint_deterministic buyRowA buyRowB rfl rfl rfl rfl rfl⟩

theorem create_trade_spec_witness :
    (∃ ra rc, create_trade "tid" ⟨1000, 0⟩ "BUY" "BTC" 1 "EUR" 5 "kraken"
        none none = .ok (ra, rc) ∧
      ra.id = "tid" ∧ rc.id = "tid" ∧ ra.asset = "BTC" ∧ ra.amount = 1 ∧
      rc.asset = "EUR" ∧ rc.amount = decNeg 5 ∧ ra.currency = rc.asset ∧
      rc.currency = ra.asset) ∧ decNeg (5 : ℚ) = -5 := by
  have h := create_trade_spec "tid" ⟨1000, 0⟩ "BUY" "BTC" 1 "EUR" 5 "kraken"
    none none (by norm_num) (by norm_num)
  exact ⟨h.1 rfl, h.2.2.2 5 (-5) 0 (by norm_num) (by norm_num)⟩

theorem reversal_neutral_witness :
    (create_reversal "rev-0" ⟨2000, 0⟩ buyRowA "reversal of").amount =
      -buyRowA.amount ∧
    lookupD (Store.asset_balances
      (Store.import_rows nowF (Store.import_rows nowF [] [buyRowA]).2
        [create_reversal "rev-0" ⟨2000, 0⟩ buyRowA "reversal of"]).2) "BTC" 0 =
      0 := by
  have h := reversal_neutral "rev-0" ⟨2000, 0⟩ nowF nowF buyRowA (-1) (-1)
    (by norm_num) (by norm_num [buyRowA])
  refine ⟨h.2.1, ?_⟩
  have h1 : (Store.import_rows nowF [] [buyRowA]).1.1 = 1 := by
    simp only [Store.import_rows]
    rw [insert_of_absent nowF (by rfl)]
    simp [Store.import_rows]
  have e1 : (Store.import_rows nowF [] [buyRowA]).2 = [storedOf nowF buyRowA] := by
    simp only [Store.import_rows]
    rw [insert_of_absent nowF (by rfl)]
    simp [Store.import_rows]
  have hfp : Store.fpPresent [storedOf nowF buyRowA]
      (create_reversal "rev-0" ⟨2000, 0⟩ buyRowA "reversal of").fingerprint =
      false := by
    simp only [Store.fpPresent, List.any_cons, List.any_nil, storedOf,
      fp_buyRowA, fp_revA, Bool.or_false]
    decide
  have h2 : (Store.import_rows nowF (Store.import_rows nowF [] [buyRowA]).2
      [create_reversal "rev-0" ⟨2000, 0⟩ buyRowA "reversal of"]).1.1 = 1 := by
    rw [e1]
    simp only [Store.import_rows]
    rw [insert_of_absent nowF hfp]
    simp [Store.import_rows]
  exact h.2.2 h1 h2 "BTC"

theorem asset_balances_rounded_fold_witness :
    lookupD (Store.asset_balances
        (Store.insert nowF (Store.insert nowF [] satRow1).2 satRow2).2) "BTC" 0 =
      3 / 100000000 ∧
    decAdd 1 2 = 1 + 2 :=
  ⟨(asset_balances_rounded_fold [] "BTC").2.2,
   (asset_balances_rounded_fold [] "BTC").2.1 1 2 3 0 (by norm_num) (by norm_num)⟩

theorem venue_refines_asset_witness :
    ((Store.venue_balances [storedOf nowF feeRow]).map
      (fun p => lookupD p.2 "EUR" 0)).sum =
      lookupD (Store.asset_balances [storedOf nowF feeRow]) "EUR" 0 := by
  have hA : lookupD (Store.asset_balances [storedOf nowF feeRow]) "EUR" 0 =
      (([storedOf nowF feeRow].filter (fun sr => decide (sr.asset = "EUR"))).map
        StoredRow.amount).sum := by
    rw [asset_balances_lookup, List.filter_cons_of_pos (by decide), List.filter_nil,
      List.map_cons, List.map_nil, List.foldl_cons, List.foldl_nil, List.sum_cons,
      List.sum_nil, decAdd_sci _ _ (-100) 0 (by norm_num)
        (by norm_num [storedOf, feeRow])]
    norm_num
  have hasst : (storedOf nowF feeRow).asset = "EUR" := by decide
  have hV : ∀ v, lookupD (lookupD (Store.venue_balances [storedOf nowF feeRow])
      v []) "EUR" 0 =
      (([storedOf nowF feeRow].filter (fun sr =>
        decide (sr.venue = v) && decide (sr.asset = "EUR"))).map
          StoredRow.amount).sum := by
    intro v
    rw [venue_balances_lookup]
    by_cases hv : (storedOf nowF feeRow).venue = v
    · rw [List.filter_cons_of_pos (by simp [hv, hasst]), List.filter_nil,
        List.map_cons, List.map_nil, List.foldl_cons, List.foldl_nil,
        List.sum_cons, List.sum_nil, decAdd_sci _ _ (-100) 0 (by norm_num)
          (by norm_num [storedOf, feeRow])]
      norm_num
    · rw [List.filter_cons_of_neg (by simp [hv]), List.filter_nil]
      rfl
  exact venue_refines_asset [storedOf nowF feeRow] "EUR" hA hV

theorem add_reversal_spec_witness :
    add_reversal nowF mkId0 [] 5 true =
      ({ success := false, rows_inserted := 0, diagnostics := [],
         errors := ["Řádek pk=" ++ toString 5 ++ " nenalezen."] }, []) ∧
    (add_reversal ⟨2000, 0⟩ mkId0 [storedOf nowF tradeRowI] 1 true).2 =
      (Store.import_rows ⟨2000, 0⟩ [storedOf nowF tradeRowI]
        (reversalsFor mkId0 ⟨2000, 0⟩ [storedOf nowF tradeRowI]
          (rawOf (storedOf nowF tradeRowI)) true)).2 := by
  have hrows : Store.get_rows_by_id [storedOf nowF tradeRowI]
      (rawOf (storedOf nowF tradeRowI)).id = [rawOf (storedOf nowF tradeRowI)] := by
    unfold Store.get_rows_by_id
    rw [List.filter_cons_of_pos (by decide), List.filter_nil,
      List.mergeSort_of_sorted (by simp)]
    simp
  have hrevs : reversalsFor mkId0 ⟨2000, 0⟩ [storedOf nowF tradeRowI]
      (rawOf (storedOf nowF tradeRowI)) true =
      [create_reversal (mkId0 0) ⟨2000, 0⟩ (rawOf (storedOf nowF tradeRowI))
        "reversal of"] := by
    unfold reversalsFor
    rw [hrows]
    simp
  have hamt : (create_reversal (mkId0 0) ⟨2000, 0⟩ (rawOf (storedOf nowF tradeRowI))
      "reversal of").amount ≠ 0 := by
    show decNeg (rawOf (storedOf nowF tradeRowI)).amount ≠ 0
    rw [show (rawOf (storedOf nowF tradeRowI)).amount = 7 from rfl,
      decNeg_sci 7 (-7) 0 (by norm_num) (by norm_num)]
    norm_num
  have hval : validate_row (create_reversal (mkId0 0) ⟨2000, 0⟩
      (rawOf (storedOf nowF tradeRowI)) "reversal of") = (true, []) := by
    simp only [validate_row]
    rw [if_neg hamt]
    decide
  have herr : reversalErrors (reversalsFor mkId0 ⟨2000, 0⟩
      [storedOf nowF tradeRowI] (rawOf (storedOf nowF tradeRowI)) true) = [] := by
    rw [hrevs]
    simp [reversalErrors, hval]
  refine ⟨(add_reversal_spec nowF mkId0 [] 5 true).1 rfl, ?_⟩
  exact (((add_reversal_spec ⟨2000, 0⟩ mkId0 [storedOf nowF tradeRowI] 1
    true).2 (rawOf (storedOf nowF tradeRowI)) rfl).2.2 herr).1

theorem timeline_sorted_witness :
    [rawOf (storedOf nowF satRow1), rawOf (storedOf nowF satRow1)].Sublist
      (Store.timeline [storedOf nowF satRow1, storedOf nowF satRow1]) :=
  (timeline_sorted [storedOf nowF satRow1, storedOf nowF satRow1]).2.2
    (storedOf nowF satRow1) (storedOf nowF satRow1) rfl (List.Sublist.refl _)

theorem diagnostics_negative_balance_witness :
    ∃ w, w ∈ Store.diagnostics (Store.insert nowF [] feeRow).2 ∧
      w.venue = "kraken" ∧ w.asset = "EUR" := by
  apply (diagnostics_negative_balance (Store.insert nowF [] feeRow).2
    "kraken" "EUR").1.mpr
  have hs2 : (Store.insert nowF [] feeRow).2 = [storedOf nowF feeRow] := by
    rw [insert_of_absent nowF (by rfl)]
    simp
  rw [hs2, venue_balances_lookup, List.filter_cons_of_pos (by decide),
    List.filter_nil, List.map_cons, List.map_nil, List.foldl_cons, List.foldl_nil,
    decAdd_sci _ _ (-100) 0 (by norm_num) (by norm_num [storedOf, feeRow])]
  norm_num [storedOf, feeRow]

theorem normalization_invariant_witness :
    (∃ a0, (storedOf nowF buyRowA).asset = upperStr a0) ∧
    (∃ v0, (storedOf nowF buyRowA).venue = lowerStr v0) := by
  have h := normalization_invariant (Store.insert nowF [] buyRowA).2
    (Reachable.step_insert nowF buyRowA Reachable.empty)
  have hmem : storedOf nowF buyRowA ∈ (Store.insert nowF [] buyRowA).2 := by
    rw [insert_of_absent nowF (by rfl)]
    simp
  exact ⟨(h.1 _ hmem).1, (h.1 _ hmem).2.2⟩

end LedgerApp
